import Mathlib

/-!
Verification of the CFP proxy repository (sources: `cfp_codec.py`,
`cfp_adapter.py`, `server.py`).

The development shallowly embeds the Python sources: Python strings are
`List Char`, JSON values are the inductive `Json` (numeric literals are
modelled as integers; the concrete inputs used in theorems below stay inside
this fragment), Python dictionaries are ordered association lists, and the
stateful `CFPStreamParser` class becomes explicit state passing.  Functions
that the source uses from the Python standard library (`json.loads`,
`json.dumps`, `re` matching for the three fixed patterns in the source) are
modelled below; theorems that do not depend on their concrete behaviour are
parameterized over them.
-/

/-- Characters of a Python string (Python strings are sequences of code points). -/
abbrev Chars := List Char

/-- Leftmost-occurrence split: `splitFirst? pat s = some (pre, post)` exactly when
`pat` occurs in `s`, where `pre` is the (minimal) text before the first occurrence
and `post` the text after it.  This models leftmost searching of a literal, as done
by Python's `str.find`, `str.replace`, `x in s`, and by `re` for literal parts. -/
def splitFirst? (pat : Chars) : Chars → Option (Chars × Chars)
  | [] => none
  | c :: cs =>
    if pat.isPrefixOf (c :: cs) then some ([], (c :: cs).drop pat.length)
    else
      match splitFirst? pat cs with
      | some (pre, post) => some (c :: pre, post)
      | none => none

/-- Boolean substring test, modelling Python's `pat in s`. -/
def containsSub (pat s : Chars) : Bool := (splitFirst? pat s).isSome

/-- Python `str.lower` (the sources only lower-case ASCII model names). -/
def lowerChars (s : Chars) : Chars := s.map Char.toLower

/-- Python `str.startswith`. -/
def strStartsWith (p s : Chars) : Bool := p.isPrefixOf s

/-- Python `str.endswith`. -/
def strEndsWith (p s : Chars) : Bool := p.isSuffixOf s

/-- Python `str.replace` (non-overlapping, left to right), with explicit fuel. -/
def pyReplaceFuel (pat rep : Chars) : Nat → Chars → Chars
  | 0, s => s
  | fuel + 1, s =>
    match splitFirst? pat s with
    | none => s
    | some (pre, post) => pre ++ rep ++ pyReplaceFuel pat rep fuel post

/-- Python `str.replace` (all occurrences). -/
def pyReplace (pat rep s : Chars) : Chars := pyReplaceFuel pat rep (s.length + 1) s

/-- Whitespace in the sense of Python's `str.strip` and `re`'s `\s`
(the ASCII part, which is all the sources ever meet). -/
def isPyWs (c : Char) : Bool :=
  c = ' ' || c = '\t' || c = '\n' || c = '\r' || c = Char.ofNat 11 || c = Char.ofNat 12

/-- Python `str.strip()`. -/
def pyStrip (s : Chars) : Chars :=
  ((s.dropWhile isPyWs).reverse.dropWhile isPyWs).reverse

/-- Decimal digit character. -/
def digitChar (n : Nat) : Char := Char.ofNat ('0'.toNat + n)

/-- Decimal digits of a natural number, with fuel (`n + 1` is always enough). -/
def natCharsFuel : Nat → Nat → Chars
  | 0, _ => []
  | fuel + 1, n =>
    if n < 10 then [digitChar n]
    else natCharsFuel fuel (n / 10) ++ [digitChar (n % 10)]

/-- Decimal representation of a natural number, as Python's `str`/`json` print it. -/
def natToChars (n : Nat) : Chars := natCharsFuel (n + 1) n

/-- Decimal representation of an integer, as Python's `str`/`json` print it. -/
def intToChars : Int → Chars
  | .ofNat n => natToChars n
  | .negSucc m => '-' :: natToChars (m + 1)

/-- JSON values as passed around by the Python sources.  Python distinguishes
`bool` from `int`; both appear here because Python's `==` identifies `True`
with `1` (`pyEq` below).  Numeric literals are modelled as integers; none of
the modelled code paths nor the concrete inputs below involve floats. -/
inductive Json where
  | null : Json
  | bool (b : Bool) : Json
  | num (n : Int) : Json
  | str (s : Chars) : Json
  | arr (xs : List Json) : Json
  | obj (fs : List (Chars × Json)) : Json

/-- Python truthiness of a JSON value (`if x:`). -/
def pyTruthy : Json → Bool
  | .null => false
  | .bool b => b
  | .num n => n != 0
  | .str s => !s.isEmpty
  | .arr xs => !xs.isEmpty
  | .obj fs => !fs.isEmpty

/-- Whether the value may be a Python `dict` key (hashable).  Lists and dicts
raise `TypeError` when used as keys. -/
def pyHashable : Json → Bool
  | .null => true
  | .bool _ => true
  | .num _ => true
  | .str _ => true
  | .arr _ => false
  | .obj _ => false

mutual

/-- Python `==` on JSON values.  `True == 1` and `False == 0` hold, so booleans
and numbers are compared numerically.  Container comparison is modelled
order-sensitively; the embedded code only ever compares scalars (protocol
versions, roles and call ids), so the container cases are never exercised. -/
def pyEq : Json → Json → Bool
  | .null, .null => true
  | .bool a, .bool b => a == b
  | .bool a, .num n => (if a then (1 : Int) else 0) == n
  | .num n, .bool a => n == (if a then (1 : Int) else 0)
  | .num a, .num b => a == b
  | .str a, .str b => a == b
  | .arr a, .arr b => pyEqArr a b
  | .obj a, .obj b => pyEqObj a b
  | _, _ => false

def pyEqArr : List Json → List Json → Bool
  | [], [] => true
  | x :: xs, y :: ys => pyEq x y && pyEqArr xs ys
  | _, _ => false

def pyEqObj : List (Chars × Json) → List (Chars × Json) → Bool
  | [], [] => true
  | (k, v) :: fs, (k', v') :: fs' => k == k' && pyEq v v' && pyEqObj fs fs'
  | _, _ => false

end

/-- Python addition on JSON values (`a + b`): strings and lists concatenate,
numbers (including booleans, which are ints) add; any other combination raises
`TypeError`, modelled as `none`. -/
def pyAdd : Json → Json → Option Json
  | .str a, .str b => some (.str (a ++ b))
  | .arr a, .arr b => some (.arr (a ++ b))
  | .num a, .num b => some (.num (a + b))
  | .num a, .bool b => some (.num (a + (if b then 1 else 0)))
  | .bool a, .num b => some (.num ((if a then 1 else 0) + b))
  | .bool a, .bool b => some (.num ((if a then 1 else 0) + (if b then 1 else 0)))
  | _, _ => none

/-- Lookup in a JSON object (Python dicts have unique keys; the first match
is therefore the only one). -/
def jsonObjGet : List (Chars × Json) → Chars → Option Json
  | [], _ => none
  | (k, v) :: fs, key => if k = key then some v else jsonObjGet fs key

/-- Python `d.get(key, default)` on a JSON object. -/
def jsonObjGetD (fs : List (Chars × Json)) (key : Chars) (d : Json) : Json :=
  (jsonObjGet fs key).getD d

/-- Python `key in d` on a JSON object. -/
def jsonObjHasKey (fs : List (Chars × Json)) (key : Chars) : Bool :=
  (jsonObjGet fs key).isSome

/-- Python `d[key] = v` on a JSON object: replace in place (dicts keep the
original insertion position of an existing key), else append. -/
def jsonObjSet : List (Chars × Json) → Chars → Json → List (Chars × Json)
  | [], key, v => [(key, v)]
  | (k, v') :: fs, key, v =>
    if k = key then (k, v) :: fs else (k, v') :: jsonObjSet fs key v

/-- Lowercase hexadecimal digit, as `json.dumps` prints escapes. -/
def hexDigitChar (n : Nat) : Char :=
  if n < 10 then digitChar n else Char.ofNat ('a'.toNat + (n - 10))

/-- Escaping of one character by `json.dumps(..., ensure_ascii=False)`:
quote, backslash and control characters are escaped, everything else
(including non-ASCII) is kept verbatim. -/
def jsonEscChar (c : Char) : Chars :=
  if c = '"' then ['\\', '"']
  else if c = '\\' then ['\\', '\\']
  else if c = '\n' then ['\\', 'n']
  else if c = '\r' then ['\\', 'r']
  else if c = '\t' then ['\\', 't']
  else if c = Char.ofNat 8 then ['\\', 'b']
  else if c = Char.ofNat 12 then ['\\', 'f']
  else if c.toNat < 32 then
    ['\\', 'u', '0', '0', hexDigitChar (c.toNat / 16), hexDigitChar (c.toNat % 16)]
  else [c]

/-- String-body escaping of `json.dumps(..., ensure_ascii=False)`. -/
def jsonEscape (s : Chars) : Chars := (s.map jsonEscChar).flatten

mutual

/-- Serialization by Python's `json.dumps(..., ensure_ascii=False)` with item
separator `isep` and key separator `ksep`.  The source uses
`separators=(",", ":")` in `cfp_codec.encode` and the defaults `(", ", ": ")`
elsewhere. -/
def Json.dumps (isep ksep : Chars) : Json → Chars
  | .null => "null".data
  | .bool true => "true".data
  | .bool false => "false".data
  | .num n => intToChars n
  | .str s => '"' :: jsonEscape s ++ ['"']
  | .arr xs => '[' :: Json.dumpsArr isep ksep xs ++ [']']
  | .obj fs => '{' :: Json.dumpsObj isep ksep fs ++ ['}']

def Json.dumpsArr (isep ksep : Chars) : List Json → Chars
  | [] => []
  | x :: xs =>
    Json.dumps isep ksep x ++
      (match xs with | [] => [] | _ => isep) ++ Json.dumpsArr isep ksep xs

def Json.dumpsObj (isep ksep : Chars) : List (Chars × Json) → Chars
  | [] => []
  | (k, v) :: fs =>
    '"' :: jsonEscape k ++ ['"'] ++ ksep ++ Json.dumps isep ksep v ++
      (match fs with | [] => [] | _ => isep) ++ Json.dumpsObj isep ksep fs

end

/-- Compact serialization, as `json.dumps(doc, separators=(",", ":"), ensure_ascii=False)`. -/
def json_dumps_compact (j : Json) : Chars := Json.dumps [','] [':'] j

/-- Default serialization, as `json.dumps(x, ensure_ascii=False)` (separators `", "`, `": "`). -/
def json_dumps (j : Json) : Chars := Json.dumps [',', ' '] [':', ' '] j

/-- JSON whitespace, as skipped by `json.loads`. -/
def isJsonWs (c : Char) : Bool := c = ' ' || c = '\t' || c = '\n' || c = '\r'

/-- Skip JSON whitespace. -/
def skipJsonWs : Chars → Chars
  | [] => []
  | c :: cs => if isJsonWs c then skipJsonWs cs else c :: cs

/-- Decimal digit test. -/
def isDigitChar (c : Char) : Bool := '0' ≤ c && c ≤ '9'

/-- Take a maximal run of decimal digits. -/
def takeDigits : Chars → Chars × Chars
  | [] => ([], [])
  | c :: cs =>
    if isDigitChar c then
      let (ds, r) := takeDigits cs
      (c :: ds, r)
    else ([], c :: cs)

/-- Numeric value of a digit string. -/
def digitsToNat (ds : Chars) : Nat :=
  ds.foldl (fun acc c => acc * 10 + (c.toNat - '0'.toNat)) 0

/-- Hexadecimal digit value. -/
def hexVal (c : Char) : Option Nat :=
  if 'A' ≤ c && c ≤ 'F' then some (c.toNat - 'A'.toNat + 10)
  else if 'a' ≤ c && c ≤ 'f' then some (c.toNat - 'a'.toNat + 10)
  else if '0' ≤ c && c ≤ '9' then some (c.toNat - '0'.toNat)
  else none

/-- Single-character JSON escapes. -/
def jsonUnescChar : Char → Option Char
  | 'b' => some (Char.ofNat 8)
  | 'f' => some (Char.ofNat 12)
  | 'n' => some '\n'
  | 'r' => some '\r'
  | 't' => some '\t'
  | '/' => some '/'
  | '"' => some '"'
  | '\\' => some '\\'
  | _ => none

/-- Parse a JSON string body (after the opening quote), returning the decoded
content and the input after the closing quote.  Strict like `json.loads`:
raw control characters are rejected.  A `\uXXXX` escape becomes one code
point (surrogate pairs are not recombined; no input below uses them). -/
def parseJStr : Chars → Option (Chars × Chars)
  | [] => none
  | c :: rest =>
    if c = '"' then some ([], rest)
    else if c = '\\' then
      match rest with
      | [] => none
      | e :: rest2 =>
        if e = 'u' then
          match rest2 with
          | a :: b :: c2 :: d :: rest3 =>
            (match hexVal a, hexVal b, hexVal c2, hexVal d with
             | some va, some vb, some vc, some vd =>
               (parseJStr rest3).map
                 (fun p => (Char.ofNat (((va * 16 + vb) * 16 + vc) * 16 + vd) :: p.1, p.2))
             | _, _, _, _ => none)
          | _ => none
        else
          match jsonUnescChar e with
          | some ch => (parseJStr rest2).map (fun p => (ch :: p.1, p.2))
          | none => none
    else if c.toNat < 32 then none
    else (parseJStr rest).map (fun p => (c :: p.1, p.2))

/-- Parse an unsigned JSON number token (`0|[1-9][0-9]*`).  A following `.`,
`e` or `E` would make Python lex a float; floats are outside the modelled
fragment, so such inputs are rejected rather than parsed. -/
def parseJNum : Chars → Option (Int × Chars)
  | [] => none
  | c :: cs =>
    if ¬ isDigitChar c then none
    else
      let (tok, rest) :=
        if c = '0' then (([c] : Chars), cs)
        else
          let (ds, r) := takeDigits (c :: cs)
          (ds, r)
      match rest with
      | '.' :: _ => none
      | 'e' :: _ => none
      | 'E' :: _ => none
      | _ => some ((digitsToNat tok : Nat), rest)

mutual

/-- Parse one JSON value (model of `json.loads`' recursive descent).  The fuel
decreases on every recursive call; `length input + 1` is always sufficient
since each call consumes at least one character first. -/
def parseJVal : Nat → Chars → Option (Json × Chars)
  | 0, _ => none
  | fuel + 1, s =>
    match skipJsonWs s with
    | [] => none
    | c :: r =>
      if c = '{' then
        (match skipJsonWs r with
         | [] => none
         | c2 :: r2 => if c2 = '}' then some (.obj [], r2)
             else parseJMembers fuel (c2 :: r2) [])
      else if c = '[' then
        (match skipJsonWs r with
         | [] => none
         | c2 :: r2 => if c2 = ']' then some (.arr [], r2)
             else parseJItems fuel (c2 :: r2) [])
      else if c = '"' then (parseJStr r).map (fun p => (.str p.1, p.2))
      else if c = 't' then
        (match r with
         | 'r' :: 'u' :: 'e' :: r2 => some (.bool true, r2)
         | _ => none)
      else if c = 'f' then
        (match r with
         | 'a' :: 'l' :: 's' :: 'e' :: r2 => some (.bool false, r2)
         | _ => none)
      else if c = 'n' then
        (match r with
         | 'u' :: 'l' :: 'l' :: r2 => some (.null, r2)
         | _ => none)
      else if c = '-' then (parseJNum r).map (fun p => (.num (-p.1), p.2))
      else (parseJNum (c :: r)).map (fun p => (.num p.1, p.2))

/-- Parse object members (positioned at a key, after whitespace). -/
def parseJMembers : Nat → Chars → List (Chars × Json) → Option (Json × Chars)
  | 0, _, _ => none
  | fuel + 1, s, acc =>
    match s with
    | [] => none
    | c :: r =>
      if c = '"' then
        (match parseJStr r with
         | none => none
         | some (k, r2) =>
           match skipJsonWs r2 with
           | [] => none
           | c3 :: r3 =>
             if c3 = ':' then
               (match parseJVal fuel r3 with
                | none => none
                | some (v, r4) =>
                  let acc' := jsonObjSet acc k v
                  match skipJsonWs r4 with
                  | [] => none
                  | c5 :: r5 =>
                    if c5 = ',' then parseJMembers fuel (skipJsonWs r5) acc'
                    else if c5 = '}' then some (.obj acc', r5)
                    else none)
             else none)
      else none

/-- Parse array items (positioned at a value). -/
def parseJItems : Nat → Chars → List Json → Option (Json × Chars)
  | 0, _, _ => none
  | fuel + 1, s, acc =>
    match parseJVal fuel s with
    | none => none
    | some (v, r) =>
      match skipJsonWs r with
      | [] => none
      | c2 :: r2 =>
        if c2 = ',' then parseJItems fuel r2 (acc ++ [v])
        else if c2 = ']' then some (.arr (acc ++ [v]), r2)
        else none

end

/-- Model of Python's `json.loads`: parse one value, allow trailing
whitespace only. -/
def json_loads (s : Chars) : Option Json :=
  match parseJVal (s.length + 1) s with
  | some (j, rest) => if skipJsonWs rest = [] then some j else none
  | none => none

/-- CFPMarkers.CALL_MARKER from `cfp_codec.py`. -/
def CALL_MARKER : Char := '⚡'

/-- CFPMarkers.ARGS_DELTA_MARKER. -/
def ARGS_DELTA_MARKER : Char := '📝'

/-- CFPMarkers.ARGS_COMPLETE_MARKER. -/
def ARGS_COMPLETE_MARKER : Char := '✅'

/-- CFPMarkers.RESULT_MARKER. -/
def RESULT_MARKER : Char := '🔄'

/-- CFPMarkers.ERROR_MARKER. -/
def ERROR_MARKER : Char := '❌'

/-- CFPMarkers.get_all_markers. -/
def get_all_markers : List Char :=
  [CALL_MARKER, ARGS_DELTA_MARKER, ARGS_COMPLETE_MARKER, RESULT_MARKER, ERROR_MARKER]

/-- CFPMarkers.get_marker_for_role (default CALL_MARKER). -/
def get_marker_for_role (role : Chars) : Char :=
  if role = "call".data then CALL_MARKER
  else if role = "args_delta".data then ARGS_DELTA_MARKER
  else if role = "args_complete".data then ARGS_COMPLETE_MARKER
  else if role = "result".data then RESULT_MARKER
  else if role = "error".data then ERROR_MARKER
  else CALL_MARKER

/-- TAG_OPEN from `cfp_codec.py`. -/
def TAG_OPEN : Chars := '<' :: 'c' :: 'f' :: 'p' :: ['>']

/-- TAG_CLOSE from `cfp_codec.py`. -/
def TAG_CLOSE : Chars := '<' :: '/' :: 'c' :: 'f' :: 'p' :: ['>']

/-- Literal `<cfp` (the opening delimiter without its closing bracket),
shared by all three regular expressions in the sources. -/
def TAG_OPEN_STEM : Chars := '<' :: 'c' :: 'f' :: ['p']

/-- Role-specific fields appended to the document by `cfp_codec.encode`:
`name`+`args` for `call`, `result` for `result`, `err` for `error`, `delta`
for `args_delta`, nothing for `args_complete`, and a `ValueError` (`none`)
for anything else.  Python's `x or y` fallbacks (`args or \x7b\x7d`,
`result or \x7b\x7d`, `err or \x7b\x7d`, `args or ""`) are modelled with
`pyTruthy`. -/
def encode_fields (role : Chars) (name : Option Chars) (args : Option Json)
    (result : Option Json) (err : Option Json) : Option (List (Chars × Json)) :=
  if role = "call".data then
    some [("name".data, match name with | some s => .str s | none => .null),
          ("args".data, match args with
            | some a => if pyTruthy a then a else .obj []
            | none => .obj [])]
  else if role = "result".data then
    some [("result".data, match result with
            | some r => if pyTruthy r then r else .obj []
            | none => .obj [])]
  else if role = "error".data then
    some [("err".data, match err with
            | some e => if pyTruthy e then e else .obj []
            | none => .obj [])]
  else if role = "args_delta".data then
    some [("delta".data, match args with
            | some a => if pyTruthy a then a else .str []
            | none => .str [])]
  else if role = "args_complete".data then some []
  else none

/-- The full document serialized by `cfp_codec.encode`: `v`, `role`, `id` in
insertion order, then the role-specific fields. -/
def encode_doc (role call_id : Chars) (name : Option Chars) (args : Option Json)
    (result : Option Json) (err : Option Json) (version : Int) :
    Option (List (Chars × Json)) :=
  match encode_fields role name args result err with
  | none => none
  | some fields =>
    some ([("v".data, .num version), ("role".data, .str role),
      ("id".data, .str call_id)] ++ fields)

/-- Model of `cfp_codec.encode`.  The document is built in insertion order,
serialized compactly, and wrapped either in `<cfp{marker}>…</cfp>` (when
`use_role_markers`, the source's default) or in `<cfp>…</cfp>`.  An
unsupported role raises `ValueError`, modelled as `none`. -/
def encode (role call_id : Chars) (name : Option Chars := none)
    (args : Option Json := none) (result : Option Json := none)
    (err : Option Json := none) (version : Int := 1)
    (use_role_markers : Bool := true) : Option Chars :=
  match encode_doc role call_id name args result err version with
  | none => none
  | some doc =>
    let payload := json_dumps_compact (.obj doc)
    if use_role_markers then
      some (TAG_OPEN_STEM ++ [get_marker_for_role role] ++ ['>'] ++ payload ++ TAG_CLOSE)
    else
      some (TAG_OPEN ++ payload ++ TAG_CLOSE)

/-- cfp_codec.encode_call. -/
def encode_call (call_id name : Chars) (args : Option Json := none)
    (use_role_markers : Bool := true) : Option Chars :=
  encode "call".data call_id (some name) args none none 1 use_role_markers

/-- cfp_codec.encode_args_delta (its `delta` argument is a string passed as `args`). -/
def encode_args_delta (call_id delta : Chars) (use_role_markers : Bool := true) :
    Option Chars :=
  encode "args_delta".data call_id none (some (.str delta)) none none 1 use_role_markers

/-- cfp_codec.encode_args_complete. -/
def encode_args_complete (call_id : Chars) (use_role_markers : Bool := true) :
    Option Chars :=
  encode "args_complete".data call_id none none none none 1 use_role_markers

/-- cfp_codec.encode_result. -/
def encode_result (call_id : Chars) (result : Option Json := none)
    (use_role_markers : Bool := true) : Option Chars :=
  encode "result".data call_id none none result none 1 use_role_markers

/-- Start indices (ascending, possibly overlapping) of every occurrence of
`pat` in `s`; used to model the backtracking of `_cfp_re` below. -/
def subIdxs (pat : Chars) : Chars → List Nat
  | [] => []
  | c :: cs =>
    (if pat.isPrefixOf (c :: cs) then [0] else []) ++ (subIdxs pat cs).map (· + 1)

/-- Length of the leading whitespace run (for the regex's greedy `\s*`). -/
def wsRunLen (s : Chars) : Nat := (s.takeWhile isPyWs).length

/-- Attempt of `_cfp_re = <cfp>\s*(.+?)\s*</cfp>` (DOTALL) at one candidate
start.  `after` is the text following the literal `<cfp>`.  Backtracking
semantics: the leading `\s*` is greedy but yields just enough to leave at
least one character for `.+?`; `.+?` then stops at the first reachable
`</cfp>`; the trailing `\s*` absorbs whitespace adjacent to the close tag.
Returns the captured group and the text after the whole match. -/
def tradMatchHere (after : Chars) : Option (Chars × Chars) :=
  let occs := subIdxs TAG_CLOSE after
  let usable := occs.filter (fun j => 1 ≤ j)
  match usable with
  | [] => none
  | u :: us =>
    let lastU := (u :: us).getLast (by simp)
    let w1 := min (wsRunLen after) (lastU - 1)
    let j := ((occs.filter (fun x => w1 + 1 ≤ x)).head?).getD 0
    let seg := (after.take j).drop (w1 + 1)
    let t := wsRunLen seg.reverse
    let p := max (w1 + 1) (j - t)
    some ((after.take p).drop w1, after.drop (j + 6))

/-- Leftmost match of `_cfp_re` in `s`: try each occurrence of `<cfp>` from
the left; a failed candidate (no close tag with a nonempty body after it)
falls through to the next one, as the regex engine does.  Returns
`(text before the match, captured group, text after the match)`. -/
def findTradBlockFuel : Nat → Chars → Option (Chars × Chars × Chars)
  | 0, _ => none
  | fuel + 1, s =>
    match splitFirst? TAG_OPEN s with
    | none => none
    | some (pre0, after) =>
      match tradMatchHere after with
      | some (g, rest) => some (pre0, g, rest)
      | none =>
        match findTradBlockFuel fuel after with
        | some (pre', g, rest) => some (pre0 ++ TAG_OPEN ++ pre', g, rest)
        | none => none

/-- Leftmost match of `_cfp_re` (fuel instantiated). -/
def findTradBlock (s : Chars) : Option (Chars × Chars × Chars) :=
  findTradBlockFuel (s.length + 1) s

/-- Leftmost match of `_cfp_marker_re = <cfp([markers])>(.*?)</cfp>` (DOTALL):
a literal `<cfp`, one marker character, `>`, then a lazy body up to the first
`</cfp>`.  A candidate without a marker falls through to the next `<cfp`. -/
def findMarkerBlockFuel : Nat → Chars → Option (Chars × Char × Chars × Chars)
  | 0, _ => none
  | fuel + 1, s =>
    match splitFirst? TAG_OPEN_STEM s with
    | none => none
    | some (pre0, after) =>
      let next :=
        match findMarkerBlockFuel fuel after with
        | some (pre', m, g, rest) => some (pre0 ++ TAG_OPEN_STEM ++ pre', m, g, rest)
        | none => none
      match after with
      | m :: '>' :: tail =>
        if m ∈ get_all_markers then
          match splitFirst? TAG_CLOSE tail with
          | some (content, rest) => some (pre0, m, content, rest)
          | none => none
        else next
      | _ => next

/-- Leftmost match of `_cfp_marker_re` (fuel instantiated). -/
def findMarkerBlock (s : Chars) : Option (Chars × Char × Chars × Chars) :=
  findMarkerBlockFuel (s.length + 1) s

/-- Model of `cfp_codec.parse_block`.  The source first tries
`json_repair.loads` (an external dependency) and falls back to `json.loads`,
returning `\x7b"raw": raw, "error": "parse_failed"\x7d` when both fail.  On
syntactically valid JSON, `json_repair` agrees with strict `json.loads`; the
repair heuristics for invalid JSON are outside the modelled fragment, so
invalid input maps to the fallback document here.  Every concrete payload
used in the theorems below is valid JSON; theorems about the stream parser
that do not depend on payload parsing are parameterized over this function. -/
def parse_block (raw : Chars) : Json :=
  match json_loads raw with
  | some j => j
  | none => .obj [("raw".data, .str raw), ("error".data, .str "parse_failed".data)]

/-- Removal of every `_cfp_re` match (model of `_cfp_re.sub('', txt)`). -/
def cfpReSubFuel : Nat → Chars → Chars
  | 0, s => s
  | fuel + 1, s =>
    match findTradBlock s with
    | none => s
    | some (pre, _, rest) => pre ++ cfpReSubFuel fuel rest

/-- Removal of every `_cfp_marker_re` match (model of `_cfp_marker_re.sub('', txt)`). -/
def cfpMarkerSubFuel : Nat → Chars → Chars
  | 0, s => s
  | fuel + 1, s =>
    match findMarkerBlock s with
    | none => s
    | some (pre, _, _, rest) => pre ++ cfpMarkerSubFuel fuel rest

/-- Model of `cfp_codec.clean_cfp_text`: strip traditional matches first,
then marker matches. -/
def clean_cfp_text (txt : Chars) : Chars :=
  cfpMarkerSubFuel (txt.length + 1) (cfpReSubFuel (txt.length + 1) txt)

/-- Model of `cfp_codec.has_cfp_blocks`. -/
def has_cfp_blocks (txt : Chars) : Bool :=
  (findTradBlock txt).isSome || (findMarkerBlock txt).isSome

/-- Entry of `CFPStreamParser.active_calls` (a Python dict with keys
`"id"`, `"name"`, `"args"`, `"complete"`).  `args` starts as the empty
string and is whatever `args_delta` accumulation produced thereafter. -/
structure CallInfo where
  id : Json
  name : Json
  args : Json
  complete : Bool

/-- State of a `CFPStreamParser` instance. -/
structure CFPStreamParser where
  active_calls : List (Json × CallInfo)
  completed_calls : List CallInfo
  buffer : Chars
  strict_validation : Bool

/-- Fresh parser (the constructor's default is strict validation). -/
def CFPStreamParser.init (strict_validation : Bool := true) : CFPStreamParser :=
  ⟨[], [], [], strict_validation⟩

/-- Lookup in `active_calls` (Python dict indexing; keys compared with `==`). -/
def dictFind (d : List (Json × CallInfo)) (k : Json) : Option CallInfo :=
  match d with
  | [] => none
  | (k', v) :: t => if pyEq k' k then some v else dictFind t k

/-- Python `d[k] = v`: replace in place (keeping the key's position) or append. -/
def dictSet (d : List (Json × CallInfo)) (k : Json) (v : CallInfo) :
    List (Json × CallInfo) :=
  match d with
  | [] => [(k, v)]
  | (k', v') :: t => if pyEq k' k then (k', v) :: t else (k', v') :: dictSet t k v

/-- Events produced by the stream parser (the dicts returned by
`_process_cfp_block` and the `text` dicts built by its callers). -/
inductive CFPEvent where
  | text (content : Chars)
  | call_start (id : Json) (name : Json) (args : Chars)
  | args_delta (id : Json) (delta : Json)
  | call_complete (id : Json) (full_args : Chars)
  | result (result : Json)

/-- Model of `CFPStreamParser._validate_cfp_content`, parameterized by the
behaviour `parseB` of `parse_block`.  Mirrors the source checks in order:
parsed value must be a dict, `v == 1` (Python `==`, so `True` also passes),
role in the valid list, id a truthy string, and the role-specific field
checks.  Nothing in the body can raise, so the source's `except` is dead. -/
def _validate_cfp_content (parseB : Chars → Json) (strict_validation : Bool)
    (content : Chars) : Bool :=
  if ¬ strict_validation then true
  else
    match parseB content with
    | .obj fs =>
      if ¬ pyEq (jsonObjGetD fs "v".data .null) (.num 1) then false
      else
        let role := jsonObjGetD fs "role".data .null
        if ¬ (["call", "result", "error", "args_delta", "args_complete"].any
              (fun r => pyEq role (.str r.data))) then false
        else
          let call_id := jsonObjGetD fs "id".data .null
          if ¬ pyTruthy call_id then false
          else
            match call_id with
            | .str _ =>
              if pyEq role (.str "call".data) then
                pyTruthy (jsonObjGetD fs "name".data .null) &&
                  (match jsonObjGetD fs "args".data .null with
                   | .obj _ => true
                   | _ => false)
              else if pyEq role (.str "result".data) then
                jsonObjHasKey fs "result".data
              else if pyEq role (.str "args_delta".data) then
                jsonObjHasKey fs "delta".data
              else true
            | _ => false
    | _ => false

/-- Piece produced by `_extract_complete_cfp_blocks`: inter-block text or a
validated CFP payload. -/
inductive CFPPart where
  | text (s : Chars)
  | cfp (content : Chars)

/-- Leftmost match of the extraction pattern `<cfp([^>]*)>(.*?)</cfp>`
(DOTALL) used by `_extract_complete_cfp_blocks`: the text before the match,
the `[^>]*` group, the lazy body, and the text after the match.  Literal
`<cfp`, then everything up to the first `>`, then everything up to the first
`</cfp>`.  First-occurrence composition is faithful to the regex: if the
first `<cfp` candidate fails (no later `>`, or no `</cfp>` after it), every
later candidate fails too, since its searches scan subsets of the same
suffixes. -/
def findBlock (s : Chars) : Option (Chars × Chars × Chars × Chars) :=
  match splitFirst? TAG_OPEN_STEM s with
  | none => none
  | some (pre, after) =>
    match splitFirst? ['>'] after with
    | none => none
    | some (marker, afterGt) =>
      match splitFirst? TAG_CLOSE afterGt with
      | none => none
      | some (content, rest) => some (pre, marker, content, rest)

/-- The whole text matched by `findBlock` (the regex's `group(0)`). -/
def blockGroup0 (marker content : Chars) : Chars :=
  TAG_OPEN_STEM ++ marker ++ ['>'] ++ content ++ TAG_CLOSE

/-- Extraction loop of `_extract_complete_cfp_blocks`: walk the complete
matches from the left; nonempty text gaps are emitted, each block becomes a
`cfp` part when it validates and a verbatim `text` part (the full match)
otherwise; the input after the last complete match is the remainder. -/
def extractLoopFuel (validate : Chars → Bool) : Nat → Chars → List CFPPart × Chars
  | 0, s => ([], s)
  | fuel + 1, s =>
    match findBlock s with
    | none => ([], s)
    | some (pre, marker, content, rest) =>
      let item :=
        if validate content then CFPPart.cfp content
        else CFPPart.text (blockGroup0 marker content)
      let (ps, rem) := extractLoopFuel validate fuel rest
      ((if pre.isEmpty then [] else [CFPPart.text pre]) ++ item :: ps, rem)

/-- Model of `CFPStreamParser._extract_complete_cfp_blocks`. -/
def _extract_complete_cfp_blocks (validate : Chars → Bool) (text : Chars) :
    List CFPPart × Chars :=
  extractLoopFuel validate (text.length + 1) text

/-- Result of `_process_cfp_block`: either a normal return (the optional
event dict plus the updated `active_calls`/`completed_calls`), or an escaped
Python exception (`.error ()`), which the caller's `except` turns into a
verbatim text event.  Every raising statement in the source fires before any
state mutation, so an exception leaves the state unchanged. -/
def _process_cfp_block (jloads : Chars → Option Json)
    (active : List (Json × CallInfo)) (completed : List CallInfo)
    (cfp_data : Json) :
    Except Unit (Option CFPEvent × List (Json × CallInfo) × List CallInfo) :=
  match cfp_data with
  | .obj fs =>
    let role := jsonObjGetD fs "role".data .null
    let call_id := jsonObjGetD fs "id".data .null
    if pyEq role (.str "call".data) then
      -- the `initial_args` read of the source is dead; `args` starts empty
      if pyHashable call_id then
        let info : CallInfo :=
          ⟨call_id, jsonObjGetD fs "name".data .null, .str [], false⟩
        .ok (some (.call_start call_id info.name []), dictSet active call_id info,
          completed)
      else .error ()
    else if pyEq role (.str "args_delta".data) then
      if pyHashable call_id then
        match dictFind active call_id with
        | some info =>
          let delta := jsonObjGetD fs "delta".data (.str [])
          if ¬ pyTruthy info.args then
            .ok (some (.args_delta call_id delta),
              dictSet active call_id { info with args := delta }, completed)
          else
            match pyAdd info.args delta with
            | some v =>
              .ok (some (.args_delta call_id delta),
                dictSet active call_id { info with args := v }, completed)
            | none => .error ()
        | none => .ok (none, active, completed)
      else .error ()
    else if pyEq role (.str "args_complete".data) then
      if pyHashable call_id then
        match dictFind active call_id with
        | some info =>
          if pyTruthy info.args then
            match info.args with
            | .str s =>
              let clean :=
                match jloads s with
                | some v => json_dumps v
                | none => '{' :: ['}']
              let info' := { info with args := .str clean, complete := true }
              .ok (some (.call_complete call_id clean),
                dictSet active call_id info', completed ++ [info'])
            | _ => .error ()
          else
            let info' := { info with args := .str ('{' :: ['}']), complete := true }
            .ok (some (.call_complete call_id ('{' :: ['}'])),
              dictSet active call_id info', completed ++ [info'])
        | none => .ok (none, active, completed)
      else .error ()
    else if pyEq role (.str "result".data) then
      .ok (some (.result (jsonObjGetD fs "result".data .null)), active, completed)
    else
      .ok (none, active, completed)
  | _ => .error ()

/-- Processing of one extracted part inside `parse_stream_chunk` /
`finalize_stream`: text parts become text events; cfp parts are parsed and
run through `_process_cfp_block`, an escaped exception becoming the
`<cfp>…</cfp>` text event of the source's `except` handler. -/
def processPart (parseB : Chars → Json) (jloads : Chars → Option Json)
    (acc : List CFPEvent × List (Json × CallInfo) × List CallInfo)
    (p : CFPPart) : List CFPEvent × List (Json × CallInfo) × List CallInfo :=
  let (events, active, completed) := acc
  match p with
  | .text c => if c.isEmpty then (events, active, completed)
      else (events ++ [.text c], active, completed)
  | .cfp content =>
    match _process_cfp_block jloads active completed (parseB content) with
    | .ok (ev, active', completed') => (events ++ ev.toList, active', completed')
    | .error () =>
      (events ++ [.text (TAG_OPEN ++ content ++ TAG_CLOSE)], active, completed)

/-- Folding `processPart` over the extracted parts. -/
def processParts (parseB : Chars → Json) (jloads : Chars → Option Json)
    (active : List (Json × CallInfo)) (completed : List CallInfo)
    (parts : List CFPPart) : List CFPEvent × List (Json × CallInfo) × List CallInfo :=
  parts.foldl (processPart parseB jloads) ([], active, completed)

/-- Model of `CFPStreamParser.parse_stream_chunk`: append the chunk to the
buffer, extract all complete blocks, process them, and keep the remainder as
the new buffer.  Nothing in the body can escape, so the source's outer
`except` is dead. -/
def parse_stream_chunk (parseB : Chars → Json) (jloads : Chars → Option Json)
    (st : CFPStreamParser) (chunk : Chars) : List CFPEvent × CFPStreamParser :=
  let buf := st.buffer ++ chunk
  let (parts, remaining) :=
    _extract_complete_cfp_blocks (_validate_cfp_content parseB st.strict_validation) buf
  let (events, active, completed) :=
    processParts parseB jloads st.active_calls st.completed_calls parts
  (events,
    { st with
        active_calls := active
        completed_calls := completed
        buffer := remaining })

/-- Model of the search `re.search(r'<cfp[^>]*>([^<]*)$', buffer)` used by
`finalize_stream` (and `_has_incomplete_cfp_block`): leftmost `<cfp`
followed by a `>`, whose tail contains no `<`.  A failed candidate falls
through to the next `<cfp` occurrence. -/
def lastCfpMatchFuel : Nat → Chars → Option Chars
  | 0, _ => none
  | fuel + 1, s =>
    match splitFirst? TAG_OPEN_STEM s with
    | none => none
    | some (_, after) =>
      match splitFirst? ['>'] after with
      | none => none
      | some (_, tail) =>
        if tail.contains '<' then lastCfpMatchFuel fuel after else some tail

/-- The `([^<]*)` capture of the final-repair search, when it matches. -/
def lastCfpMatch (s : Chars) : Option Chars := lastCfpMatchFuel (s.length + 1) s

/-- Model of `CFPStreamParser.finalize_stream`: strip the buffer, append a
closing tag when the tail is an unterminated block whose body is complete
JSON, extract and process once more, emit the remainder as text, and clear
the buffer. -/
def finalize_stream (parseB : Chars → Json) (jloads : Chars → Option Json)
    (st : CFPStreamParser) : List CFPEvent × CFPStreamParser :=
  if st.buffer.isEmpty then ([], st)
  else
    let buffer := pyStrip st.buffer
    let buffer :=
      if ¬ buffer.isEmpty ∧ ¬ strEndsWith TAG_CLOSE buffer then
        match lastCfpMatch buffer with
        | some content =>
          if (jloads content).isSome then buffer ++ TAG_CLOSE else buffer
        | none => buffer
      else buffer
    let (parts, remaining) :=
      _extract_complete_cfp_blocks (_validate_cfp_content parseB st.strict_validation)
        buffer
    let (events, active, completed) :=
      processParts parseB jloads st.active_calls st.completed_calls parts
    let events :=
      if remaining.isEmpty then events else events ++ [.text remaining]
    (events,
      { st with
          active_calls := active
          completed_calls := completed
          buffer := [] })

/-- Feeding a sequence of fragments to one parser, accumulating events. -/
def feedMany (parseB : Chars → Json) (jloads : Chars → Option Json)
    (st : CFPStreamParser) : List Chars → List CFPEvent × CFPStreamParser
  | [] => ([], st)
  | c :: cs =>
    let (evs, st') := parse_stream_chunk parseB jloads st c
    let (evs', st'') := feedMany parseB jloads st' cs
    (evs ++ evs', st'')

/-- Complete run: feed every fragment, then finalize, concatenating events. -/
def runStream (parseB : Chars → Json) (jloads : Chars → Option Json)
    (strict_validation : Bool) (chunks : List Chars) : List CFPEvent :=
  let (evs, st) := feedMany parseB jloads (CFPStreamParser.init strict_validation) chunks
  let (evs', _) := finalize_stream parseB jloads st
  evs ++ evs'

/-- The cleanup applied to accumulated string arguments at `args_complete`
(source lines 457-470): empty accumulations and accumulations that
`json.loads` rejects become `"{}"`; anything `json.loads` accepts — object or
not — is re-serialized with `json.dumps`'s default separators. -/
def argsCompleteClean (jloads : Chars → Option Json) (s : Chars) : Chars :=
  if s.isEmpty then '{' :: ['}']
  else
    match jloads s with
    | some v => json_dumps v
    | none => '{' :: ['}']

/-- Wrap a payload in the traditional delimiters (used for concrete inputs). -/
def mkTradBlock (j : Json) : Chars := TAG_OPEN ++ json_dumps_compact j ++ TAG_CLOSE

/-- CFP payload document with protocol fields and extras (concrete inputs). -/
def cfpObj (role id : Chars) (extra : List (Chars × Json)) : Json :=
  .obj ([("v".data, .num 1), ("role".data, .str role), ("id".data, .str id)] ++ extra)

/-- Number of `call_complete` events carrying the given id. -/
def countCallComplete (evs : List CFPEvent) (id : Json) : Nat :=
  (evs.filter (fun e =>
    match e with
    | .call_complete i _ => pyEq i id
    | _ => false)).length

/-- Concrete stream for C2: a call for id `a` followed by two
`args_complete` blocks for the same id. -/
def c2Input : Chars :=
  mkTradBlock (cfpObj "call".data "a".data
      [("name".data, .str "f".data), ("args".data, .obj [])]) ++
    mkTradBlock (cfpObj "args_complete".data "a".data []) ++
    mkTradBlock (cfpObj "args_complete".data "a".data [])

/-- Object fields of the C2/C6 witness block. -/
def wFs : List (Chars × Json) :=
  [("v".data, .num 1), ("role".data, .str "args_complete".data),
   ("id".data, .str "a".data)]

/-- Active entry of the C2 witness. -/
def wInfo : CallInfo := ⟨.str "a".data, .str "f".data, .str "5".data, false⟩

/-- Concrete stream for C6: a call for id `a`, an `args_delta` whose payload
accumulates to `"5"` (valid JSON, not an object), then `args_complete`. -/
def c6Input : Chars :=
  mkTradBlock (cfpObj "call".data "a".data
      [("name".data, .str "f".data), ("args".data, .obj [])]) ++
    mkTradBlock (cfpObj "args_delta".data "a".data
      [("delta".data, .str "5".data)]) ++
    mkTradBlock (cfpObj "args_complete".data "a".data [])

/-- Payload of the C10 witness: syntactically valid JSON with `v = 2`. -/
def c10Fs : List (Chars × Json) :=
  [("v".data, .num 2), ("role".data, .str "call".data), ("id".data, .str "a".data),
   ("name".data, .str "f".data), ("args".data, .obj [])]

/-- The C10 witness payload on the wire. -/
def c10Content : Chars := json_dumps_compact (.obj c10Fs)

/-- Characters surviving serialization unchanged: printable (no JSON escape)
and inert for the delimiter scanners (`<` excluded). -/
def safeChar (c : Char) : Bool :=
  c != '"' && c != '\\' && c != '<' && 32 ≤ c.toNat

/-- Strings of safe characters. -/
def safeStr (s : Chars) : Bool := s.all safeChar

/-- Key absent from an association list (gives distinct object keys below). -/
def keyFresh (k : Chars) : List (Chars × Json) → Bool
  | [] => true
  | (k', _) :: t => k' != k && keyFresh k t

mutual

/-- Values in the printable fragment: every string (and key) is safe, and
object keys are pairwise distinct.  Round-trip serialization is exact here. -/
def safeJson : Json → Bool
  | .null => true
  | .bool _ => true
  | .num _ => true
  | .str s => safeStr s
  | .arr xs => safeArr xs
  | .obj fs => safeObj fs

def safeArr : List Json → Bool
  | [] => true
  | x :: t => safeJson x && safeArr t

def safeObj : List (Chars × Json) → Bool
  | [] => true
  | (k, v) :: t => safeStr k && keyFresh k t && safeJson v && safeObj t

end

mutual

/-- Fuel needed by `parseJVal` to read a value back (one unit per dispatch). -/
def jsize : Json → Nat
  | .null => 1
  | .bool _ => 1
  | .num _ => 1
  | .str _ => 1
  | .arr xs => 1 + jsizeArr xs
  | .obj fs => 1 + jsizeObj fs

def jsizeArr : List Json → Nat
  | [] => 0
  | x :: t => 1 + jsize x + jsizeArr t

def jsizeObj : List (Chars × Json) → Nat
  | [] => 0
  | (_, v) :: t => 1 + jsize v + jsizeObj t

end

/-- `clean_v` of `validate_model_field`: provider prefixes are removed for
matching (`anthropic/`, `openai/`, `gemini/`). -/
def cleanV (v : Chars) : Chars :=
  if strStartsWith "anthropic/".data v then v.drop 10
  else if strStartsWith "openai/".data v then v.drop 7
  else if strStartsWith "gemini/".data v then v.drop 7
  else v

/-- `startswith(('openai/', 'gemini/', 'anthropic/'))` from `server.py`. -/
def hasProviderPrefix (m : Chars) : Bool :=
  strStartsWith "openai/".data m || strStartsWith "gemini/".data m ||
    strStartsWith "anthropic/".data m

/-- The repeated `PREFERRED_PROVIDER` prefixing branch of
`validate_model_field`. -/
def applyProviderPrefix (P m : Chars) : Chars :=
  if P = "google".data ∨ P = "gemini".data then "gemini/".data ++ m
  else if P = "anthropic".data then "anthropic/".data ++ m
  else "openai/".data ++ m

/-- The CFP-enabling suffixes of `validate_model_field`, in source order. -/
def cfpSuffixes : List Chars := ["-textonly".data, "-cfp".data, "-text".data]

/-- Model of `MessagesRequest.validate_model_field` as a pure function of the
incoming model string and the environment (`PREFERRED_PROVIDER`, `BIG_MODEL`,
`SMALL_MODEL`).  Returns the upstream model name and the `_cfp_enabled`
flag.  The source maps aliases first and only then scans `new_model` for the
CFP suffixes, stripping them with `str.replace`. -/
def validate_model_field (v P B S : Chars) : Chars × Bool :=
  let clean_v := cleanV v
  let new_model :=
    if containsSub "haiku".data (lowerChars clean_v) then
      if hasProviderPrefix S then S else applyProviderPrefix P S
    else if containsSub "sonnet".data (lowerChars clean_v) then
      if hasProviderPrefix B then B else applyProviderPrefix P B
    else if hasProviderPrefix v then v
    else applyProviderPrefix P clean_v
  let cfp_enabled := cfpSuffixes.any (fun suf => containsSub suf new_model)
  let new_model2 :=
    if cfp_enabled then
      pyReplace "-text".data []
        (pyReplace "-cfp".data [] (pyReplace "-textonly".data [] new_model))
    else new_model
  (new_model2, cfp_enabled)

/-- One provider entry of `ProviderConfig.providers`. -/
structure Provider where
  name : Chars
  base_url : Chars
  api_key : Chars
deriving DecidableEq

/-- Dictionary lookup in the provider table. -/
def provFind (d : List (Chars × Provider)) (k : Chars) : Option Provider :=
  match d with
  | [] => none
  | (k', p) :: t => if k' = k then some p else provFind t k

/-- Model of `ProviderConfig.parse_model_and_channel`: split on the first
`:`; the lowercased right part selects a channel, falling back to the
`default` provider (a missing `default` key, impossible after
`_load_config`, is `none`). -/
def parse_model_and_channel (providers : List (Chars × Provider))
    (model_name : Chars) : Option (Chars × Provider) :=
  match splitFirst? [':'] model_name with
  | some (model_part, channel_part) =>
    (match provFind providers (lowerChars channel_part) with
     | some p => some (model_part, p)
     | none => (provFind providers "default".data).map (fun d => (model_part, d)))
  | none => (provFind providers "default".data).map (fun d => (model_name, d))

/-- The model/channel pipeline of `create_message`: the field validator runs
at request parse time, then `parse_model_and_channel` sees the validated
model. -/
def resolve_model_channel (v P B S : Chars)
    (providers : List (Chars × Provider)) : Option (Chars × Provider) :=
  parse_model_and_channel providers (validate_model_field v P B S).1

/-- Concrete provider table: a configured `gemini` channel next to the
default provider. -/
def c8Pdef : Provider :=
  ⟨"default".data, "https://api.openai.com/v1".data, "KDEF".data⟩

/-- The `gemini` channel of the C8 scenario. -/
def c8Pgem : Provider :=
  ⟨"gemini".data, "https://g.example/v1".data, "KGEM".data⟩

/-- Provider table with the `gemini` channel configured. -/
def c8Providers : List (Chars × Provider) :=
  [("default".data, c8Pdef), ("gemini".data, c8Pgem)]

/-- One upstream `tool_calls` delta (`delta.tool_calls[i]`, type `function`). -/
structure ToolCallDelta where
  id : Chars
  index : Nat
  name : Chars
  arguments : Chars
deriving DecidableEq

/-- One upstream chunk as `handle_streaming` reads it: `delta.content`,
`delta.tool_calls`, `choice.finish_reason` and `usage.completion_tokens`. -/
structure Chunk where
  content : Option Chars
  tool_calls : List ToolCallDelta
  finish_reason : Option Chars
  completion_tokens : Option Nat
deriving DecidableEq

/-- The SSE events `handle_streaming` yields (payload fields that matter:
indices, ids/names, deltas, stop reason, output tokens). -/
inductive SSE where
  | message_start
  | block_start_text (index : Nat)
  | block_start_tool (index : Nat) (id : Chars) (name : Chars)
  | block_delta_text (index : Nat) (text : Chars)
  | block_delta_json (index : Nat) (partial_json : Chars)
  | block_stop (index : Nat)
  | message_delta_ev (stop_reason : Chars) (output_tokens : Nat)
  | message_stop
  | done
deriving DecidableEq

/-- Entry of `tool_calls_in_progress`. -/
structure ToolState where
  id : Chars
  name : Chars
  arguments : Chars
  started : Bool
deriving DecidableEq

/-- Lookup in `tool_calls_in_progress` (int-keyed Python dict). -/
def tpFind (d : List (Nat × ToolState)) (k : Nat) : Option ToolState :=
  match d with
  | [] => none
  | (k', v) :: t => if k' = k then some v else tpFind t k

/-- `d[k] = v` on the progress dict (position kept). -/
def tpSet (d : List (Nat × ToolState)) (k : Nat) (v : ToolState) :
    List (Nat × ToolState) :=
  match d with
  | [] => [(k, v)]
  | (k', v') :: t => if k' = k then (k', v) :: t else (k', v') :: tpSet t k v

/-- Fresh `toolu_<uuid>` id, modelled by a deterministic counter. -/
def tooluId (n : Nat) : Chars := "toolu_".data ++ natToChars n

/-- The local state of `handle_streaming` restricted to `cfp_used=False`
(in that instance every `cfp_*` variable keeps its initial value and all
CFP branches are dead, so this is the exact non-CFP fragment). -/
structure HSState where
  tool_index : Option Nat
  tool_calls_in_progress : List (Nat × ToolState)
  text_sent : Bool
  text_block_closed : Bool
  text_block_started : Bool
  has_sent_stop_reason : Bool
  accumulated_text : Chars
  finish_reason : Option Chars
  output_tokens : Nat
  uuid_counter : Nat
deriving DecidableEq

/-- Initial local state (`finish_reason = "stop"` before the loop). -/
def HSState.init : HSState :=
  ⟨none, [], false, false, false, false, [], some "stop".data, 0, 0⟩

/-- Python truthiness of the `finish_reason` variable. -/
def frTruthy : Option Chars → Bool
  | none => false
  | some f => !f.isEmpty

/-- The `stop_reason` translation at the end of the stream (the
`cfp_has_tool_calls` disjunct is `False` here). -/
def stopReasonOf (fr : Option Chars) (progress : List (Nat × ToolState)) :
    Chars :=
  if fr = some "length".data then "max_tokens".data
  else if fr = some "tool_calls".data ∨ progress ≠ [] then "tool_use".data
  else "end_turn".data

/-- The upstream-`tool_calls` loop of `handle_streaming` (non-CFP mode). -/
def processToolCalls : HSState → List ToolCallDelta → List SSE × HSState
  | st, [] => ([], st)
  | st, tc :: rest =>
    let idPair :=
      if tc.id.isEmpty then (tooluId st.uuid_counter, st.uuid_counter + 1)
      else (tc.id, st.uuid_counter)
    let tool_id := idPair.1
    let progress0 :=
      match tpFind st.tool_calls_in_progress tc.index with
      | none =>
        tpSet st.tool_calls_in_progress tc.index ⟨tool_id, tc.name, [], false⟩
      | some _ => st.tool_calls_in_progress
    let tcs := (tpFind progress0 tc.index).getD ⟨tool_id, tc.name, [], false⟩
    let tcs :=
      if ¬tc.name.isEmpty ∧ tcs.name.isEmpty then
        { tcs with
            name := tc.name }
      else tcs
    let tcs :=
      if ¬tc.arguments.isEmpty then
        { tcs with
            arguments := tcs.arguments ++ tc.arguments }
      else tcs
    let actual_index := tc.index + (if st.text_block_started then 1 else 0)
    let startPack :=
      if ¬tcs.started then
        (((if st.text_block_started ∧ ¬st.text_block_closed then
            [SSE.block_stop 0] else []) ++
          [SSE.block_start_tool actual_index tool_id tc.name]),
         { tcs with
             started := true },
         (if st.text_block_started ∧ ¬st.text_block_closed then true
          else st.text_block_closed))
      else ([], tcs, st.text_block_closed)
    let deltaEvs :=
      if ¬tc.arguments.isEmpty then
        [SSE.block_delta_json actual_index tc.arguments]
      else []
    let st' : HSState :=
      { st with
          tool_index := some tc.index
          tool_calls_in_progress := tpSet progress0 tc.index startPack.2.1
          text_block_closed := startPack.2.2
          uuid_counter := idPair.2 }
    let next := processToolCalls st' rest
    (startPack.1 ++ deltaEvs ++ next.1, next.2)

/-- The per-chunk finish-reason block: stop every started tool block, close
the text block if text was sent, then `message_delta`, `message_stop`,
`[DONE]` and return.  The boolean is the `return` (stream ends here). -/
def finishCheck (st : HSState) : List SSE × HSState × Bool :=
  if frTruthy st.finish_reason ∧ ¬st.has_sent_stop_reason then
    let stops :=
      (st.tool_calls_in_progress.filter (fun p => p.2.started)).map
        (fun p => SSE.block_stop
          (p.1 + (if st.text_block_started then 1 else 0)))
    let textPack :=
      if st.text_sent ∧ ¬st.text_block_closed then ([SSE.block_stop 0], true)
      else (([] : List SSE), st.text_block_closed)
    (stops ++ textPack.1 ++
      [SSE.message_delta_ev (stopReasonOf st.finish_reason
        st.tool_calls_in_progress) st.output_tokens,
       SSE.message_stop, SSE.done],
     { st with
         has_sent_stop_reason := true
         text_block_closed := textPack.2 },
     true)
  else ([], st, false)

/-- One chunk of `handle_streaming` with `cfp_used=False`: usage update,
`finish_reason` assignment, the tool-calls branch (which forces
`finish_reason = "tool_use"`), the plain-text branch, then the finish
check. -/
def processChunkNonCfp (st : HSState) (ch : Chunk) : List SSE × HSState × Bool :=
  let st :=
    { st with
        output_tokens := ch.completion_tokens.getD st.output_tokens
        finish_reason := ch.finish_reason }
  let branchPack :=
    if ¬ch.tool_calls.isEmpty then
      let r := processToolCalls st ch.tool_calls
      (r.1,
       { r.2 with
           finish_reason := some "tool_use".data })
    else
      match ch.content with
      | some c =>
        if ¬c.isEmpty then
          let st1 :=
            { st with
                accumulated_text := st.accumulated_text ++ c }
          if st.tool_index = none ∧ ¬st.text_block_closed then
            ((if ¬st.text_block_started then [SSE.block_start_text 0] else [])
              ++ [SSE.block_delta_text 0 c],
             { st1 with
                 text_block_started := true
                 text_sent := true })
          else ([], st1)
        else ([], st)
      | none => ([], st)
  let fin := finishCheck branchPack.2
  (branchPack.1 ++ fin.1, fin.2.1, fin.2.2)

/-- The chunk loop plus the `sse_interrupt` tail: when the upstream ends
without a finish reason having been handled, the source emits
`message_delta`, `message_stop`, `[DONE]` directly — without closing any
open content block. -/
def handleLoopNonCfp : List Chunk → HSState → List SSE
  | [], st =>
    [SSE.message_delta_ev (stopReasonOf st.finish_reason
        st.tool_calls_in_progress) st.output_tokens,
     SSE.message_stop, SSE.done]
  | ch :: rest, st =>
    let r := processChunkNonCfp st ch
    if r.2.2 then r.1 else r.1 ++ handleLoopNonCfp rest r.2.1

/-- Model of `handle_streaming` at `cfp_used=False`: `message_start`, the
chunk loop, and the interrupt tail when no chunk carried a finish reason. -/
def handle_streaming_noncfp (chunks : List Chunk) : List SSE :=
  SSE.message_start :: handleLoopNonCfp chunks HSState.init

/-- The failing upstream stream: one text chunk, then the upstream ends
without ever reporting a finish reason. -/
def c9Chunk : Chunk := ⟨some "hi".data, [], none, none⟩

/-- Rebuild equation for `splitFirst?`: a successful split decomposes the string. -/
theorem splitFirst?_eq {pat s pre post : Chars}
    (h : splitFirst? pat s = some (pre, post)) : s = pre ++ pat ++ post := by
  induction s generalizing pre with
  | nil => simp [splitFirst?] at h
  | cons c cs ih =>
    rw [splitFirst?] at h
    by_cases hp : pat.isPrefixOf (c :: cs)
    · simp only [hp, if_pos] at h
      obtain ⟨t, ht⟩ := (List.isPrefixOf_iff_prefix.mp hp)
      injection h with h1
      injection h1 with h1 h2
      subst h1
      conv_lhs => rw [← ht]
      simp [← ht, ← h2, List.drop_left]
    · simp only [hp, if_neg, Bool.false_eq_true, not_false_iff] at h
      cases hsp : splitFirst? pat cs with
      | none => rw [hsp] at h; exact absurd h (by simp)
      | some pr =>
        rw [hsp] at h
        obtain ⟨pre', post'⟩ := pr
        simp only at h
        injection h with h1
        injection h1 with h1 h2
        subst h2
        have := ih hsp
        subst h1
        simp [this]

/-- The pattern fits inside the string when a split succeeds. -/
theorem splitFirst?_length {pat s pre post : Chars}
    (h : splitFirst? pat s = some (pre, post)) :
    pre.length + pat.length + post.length = s.length := by
  have := splitFirst?_eq h
  subst this
  simp
  omega

/-- A prefix that fits inside the left part of an append is a prefix of it. -/
theorem prefix_of_append_left {p s t : Chars} (h : p <+: s ++ t)
    (hl : p.length ≤ s.length) : p <+: s := by
  have h1 : p = (s ++ t).take p.length := List.prefix_iff_eq_take.mp h
  have h2 : (s ++ t).take p.length = s.take p.length := by
    rw [List.take_append_eq_append_take]
    have : p.length - s.length = 0 := Nat.sub_eq_zero_of_le hl
    simp [this]
  rw [h2] at h1
  exact h1 ▸ List.take_prefix p.length s

/-- Appending on the right does not change a successful leftmost split, other than
extending the part after the match.  This is the key stability fact behind the
stream parser's fragmentation invariance: a complete match already present in the
buffer is found identically after more input arrives. -/
theorem splitFirst?_append {pat s t pre post : Chars}
    (h : splitFirst? pat s = some (pre, post)) :
    splitFirst? pat (s ++ t) = some (pre, post ++ t) := by
  induction s generalizing pre with
  | nil => simp [splitFirst?] at h
  | cons c cs ih =>
    rw [splitFirst?] at h
    by_cases hp : pat.isPrefixOf (c :: cs)
    · simp only [hp, if_pos] at h
      injection h with h1
      injection h1 with h1 h2
      subst h1
      obtain ⟨u, hu⟩ := (List.isPrefixOf_iff_prefix.mp hp)
      have hpost : post = u := by
        rw [← h2, ← hu, List.drop_left]
      have hp2 : pat.isPrefixOf (c :: (cs ++ t)) := by
        apply List.isPrefixOf_iff_prefix.mpr
        exact ⟨u ++ t, by rw [← List.append_assoc, hu, List.cons_append]⟩
      rw [List.cons_append, splitFirst?]
      simp only [hp2, if_pos]
      have hd : (c :: (cs ++ t)).drop pat.length = post ++ t := by
        have : c :: (cs ++ t) = pat ++ (u ++ t) := by
          rw [← List.append_assoc, hu, List.cons_append]
        rw [this, List.drop_left, hpost]
      rw [hd]
    · simp only [hp, if_neg, Bool.false_eq_true, not_false_iff] at h
      cases hsp : splitFirst? pat cs with
      | none => rw [hsp] at h; exact absurd h (by simp)
      | some pr =>
        rw [hsp] at h
        obtain ⟨pre', post'⟩ := pr
        simp only at h
        injection h with h1
        injection h1 with h1 h2
        subst h2
        have hlen : pat.length ≤ cs.length := by
          have := splitFirst?_length hsp
          omega
        have hp2 : ¬ pat.isPrefixOf (c :: (cs ++ t)) := by
          intro hcon
          apply hp
          apply List.isPrefixOf_iff_prefix.mpr
          have : pat <+: (c :: cs) ++ t := by
            rw [List.cons_append]
            exact List.isPrefixOf_iff_prefix.mp hcon
          exact prefix_of_append_left this (by simp; omega)
        rw [List.cons_append, splitFirst?]
        simp only [hp2, if_neg, Bool.false_eq_true, not_false_iff]
        rw [ih hsp]
        simp [← h1]

/-- A successful `findBlock` is stable under appending input on the right:
the same match is found, with the appended text joining the remainder. -/
theorem findBlock_append {s t pre marker content rest : Chars}
    (h : findBlock s = some (pre, marker, content, rest)) :
    findBlock (s ++ t) = some (pre, marker, content, rest ++ t) := by
  unfold findBlock at h ⊢
  cases h1 : splitFirst? TAG_OPEN_STEM s with
  | none => rw [h1] at h; exact absurd h (by simp)
  | some pr1 =>
    obtain ⟨pre1, after⟩ := pr1
    rw [h1] at h
    simp only at h
    cases h2 : splitFirst? ['>'] after with
    | none => rw [h2] at h; exact absurd h (by simp)
    | some pr2 =>
      obtain ⟨marker1, afterGt⟩ := pr2
      rw [h2] at h
      simp only at h
      cases h3 : splitFirst? TAG_CLOSE afterGt with
      | none => rw [h3] at h; exact absurd h (by simp)
      | some pr3 =>
        obtain ⟨content1, rest1⟩ := pr3
        rw [h3] at h
        simp only at h
        injection h with h4
        injection h4 with h4 h5
        injection h5 with h5 h6
        injection h6 with h6 h7
        subst h4 h5 h6 h7
        rw [splitFirst?_append h1]
        simp only
        rw [splitFirst?_append h2]
        simp only
        rw [splitFirst?_append h3]

/-- The remainder of a match is strictly shorter than the input. -/
theorem findBlock_length {s pre marker content rest : Chars}
    (h : findBlock s = some (pre, marker, content, rest)) :
    rest.length < s.length := by
  unfold findBlock at h
  cases h1 : splitFirst? TAG_OPEN_STEM s with
  | none => rw [h1] at h; exact absurd h (by simp)
  | some pr1 =>
    obtain ⟨pre1, after⟩ := pr1
    rw [h1] at h
    simp only at h
    cases h2 : splitFirst? ['>'] after with
    | none => rw [h2] at h; exact absurd h (by simp)
    | some pr2 =>
      obtain ⟨marker1, afterGt⟩ := pr2
      rw [h2] at h
      simp only at h
      cases h3 : splitFirst? TAG_CLOSE afterGt with
      | none => rw [h3] at h; exact absurd h (by simp)
      | some pr3 =>
        obtain ⟨content1, rest1⟩ := pr3
        rw [h3] at h
        simp only at h
        injection h with h4
        injection h4 with h4 h5
        injection h5 with h5 h6
        injection h6 with h6 h7
        subst h4 h5 h6 h7
        have l1 := splitFirst?_length h1
        have l2 := splitFirst?_length h2
        have l3 := splitFirst?_length h3
        simp [TAG_OPEN_STEM, TAG_CLOSE] at l1 l2 l3
        omega

/-- The extraction loop does not depend on the fuel, as long as the fuel
exceeds the input length. -/
theorem extractLoopFuel_congr (v : Chars → Bool) :
    ∀ f1 f2 s, s.length < f1 → s.length < f2 →
      extractLoopFuel v f1 s = extractLoopFuel v f2 s := by
  intro f1
  induction f1 with
  | zero => intro f2 s h1; omega
  | succ f ih =>
    intro f2 s h1 h2
    cases f2 with
    | zero => omega
    | succ f2' =>
      rw [extractLoopFuel, extractLoopFuel]
      cases hb : findBlock s with
      | none => rfl
      | some b =>
        obtain ⟨pre, marker, content, rest⟩ := b
        have hlen := findBlock_length hb
        simp only
        rw [ih f2' rest (by omega) (by omega)]

/-- Unfolding of the extraction when no complete block is present. -/
theorem extract_eq_none {v : Chars → Bool} {s : Chars} (h : findBlock s = none) :
    _extract_complete_cfp_blocks v s = ([], s) := by
  unfold _extract_complete_cfp_blocks
  rw [extractLoopFuel, h]

/-- Unfolding of the extraction at a complete block. -/
theorem extract_eq_some {v : Chars → Bool} {s pre marker content rest : Chars}
    (h : findBlock s = some (pre, marker, content, rest)) :
    _extract_complete_cfp_blocks v s =
      ((if pre.isEmpty then [] else [CFPPart.text pre]) ++
        (if v content then CFPPart.cfp content
         else CFPPart.text (blockGroup0 marker content)) ::
          (_extract_complete_cfp_blocks v rest).1,
       (_extract_complete_cfp_blocks v rest).2) := by
  unfold _extract_complete_cfp_blocks
  rw [extractLoopFuel, h]
  simp only
  have hlen := findBlock_length h
  rw [extractLoopFuel_congr v s.length (rest.length + 1) rest (by omega) (by omega)]

/-- The remainder left by the extraction contains no complete block. -/
theorem extract_rem_no_block (v : Chars → Bool) (s : Chars) :
    findBlock (_extract_complete_cfp_blocks v s).2 = none := by
  suffices h : ∀ n s0, List.length s0 = n → findBlock (_extract_complete_cfp_blocks v s0).2 = none from
    h s.length s rfl
  intro n
  induction n using Nat.strong_induction_on with
  | _ n ih =>
    intro s0 hs
    cases hb : findBlock s0 with
    | none => rw [extract_eq_none hb]; exact hb
    | some b =>
      obtain ⟨pre, marker, content, rest⟩ := b
      rw [extract_eq_some hb]
      have hlen := findBlock_length hb
      exact ih rest.length (by omega) rest rfl

/-- Composition of the extraction over appended input: extracting from
`s ++ t` is extracting from `s` and then from `remainder ++ t`, with the
part lists concatenated.  This is the heart of fragmentation invariance. -/
theorem extract_append (v : Chars → Bool) (s t : Chars) :
    _extract_complete_cfp_blocks v (s ++ t) =
      ((_extract_complete_cfp_blocks v s).1 ++
        (_extract_complete_cfp_blocks v ((_extract_complete_cfp_blocks v s).2 ++ t)).1,
       (_extract_complete_cfp_blocks v ((_extract_complete_cfp_blocks v s).2 ++ t)).2) := by
  suffices h : ∀ n s0, List.length s0 = n →
      _extract_complete_cfp_blocks v (s0 ++ t) =
        ((_extract_complete_cfp_blocks v s0).1 ++
          (_extract_complete_cfp_blocks v ((_extract_complete_cfp_blocks v s0).2 ++ t)).1,
         (_extract_complete_cfp_blocks v ((_extract_complete_cfp_blocks v s0).2 ++ t)).2) from
    h s.length s rfl
  intro n
  induction n using Nat.strong_induction_on with
  | _ n ih =>
    intro s0 hs
    cases hb : findBlock s0 with
    | none =>
      rw [extract_eq_none hb]
      simp
    | some b =>
      obtain ⟨pre, marker, content, rest⟩ := b
      have hlen := findBlock_length hb
      rw [extract_eq_some hb, extract_eq_some (findBlock_append hb)]
      simp only
      rw [ih rest.length (by omega) rest rfl]
      simp

/-- Events already accumulated pass through `processPart` untouched. -/
theorem processPart_shift (pB : Chars → Json) (jl : Chars → Option Json)
    (evs : List CFPEvent) (act : List (Json × CallInfo)) (comp : List CallInfo)
    (p : CFPPart) :
    processPart pB jl (evs, act, comp) p =
      (evs ++ (processPart pB jl ([], act, comp) p).1,
       (processPart pB jl ([], act, comp) p).2.1,
       (processPart pB jl ([], act, comp) p).2.2) := by
  cases p with
  | text c =>
    by_cases hc : c.isEmpty <;> simp [processPart, hc]
  | cfp content =>
    simp only [processPart]
    cases _process_cfp_block jl act comp (pB content) with
    | ok r => obtain ⟨ev, a', c'⟩ := r; simp
    | error e => cases e; simp

/-- Events already accumulated pass through a whole fold of `processPart`. -/
theorem processFold_shift (pB : Chars → Json) (jl : Chars → Option Json) :
    ∀ (ps : List CFPPart) (evs : List CFPEvent) (act : List (Json × CallInfo))
      (comp : List CallInfo),
    List.foldl (processPart pB jl) (evs, act, comp) ps =
      (evs ++ (List.foldl (processPart pB jl) ([], act, comp) ps).1,
       (List.foldl (processPart pB jl) ([], act, comp) ps).2.1,
       (List.foldl (processPart pB jl) ([], act, comp) ps).2.2) := by
  intro ps
  induction ps with
  | nil => intro evs act comp; simp
  | cons p ps ih =>
    intro evs act comp
    simp only [List.foldl_cons]
    rw [processPart_shift pB jl evs act comp p]
    rcases hp : processPart pB jl ([], act, comp) p with ⟨d, rest⟩
    rcases rest with ⟨a', c'⟩
    simp only
    rw [ih (evs ++ d) a' c', ih d a' c']
    simp

/-- Splitting `processParts` over an append of part lists. -/
theorem processParts_append (pB : Chars → Json) (jl : Chars → Option Json)
    (p1 p2 : List CFPPart) (act : List (Json × CallInfo)) (comp : List CallInfo) :
    processParts pB jl act comp (p1 ++ p2) =
      ((processParts pB jl act comp p1).1 ++
        (processParts pB jl (processParts pB jl act comp p1).2.1
          (processParts pB jl act comp p1).2.2 p2).1,
       (processParts pB jl (processParts pB jl act comp p1).2.1
          (processParts pB jl act comp p1).2.2 p2).2.1,
       (processParts pB jl (processParts pB jl act comp p1).2.1
          (processParts pB jl act comp p1).2.2 p2).2.2) := by
  unfold processParts
  rw [List.foldl_append]
  rcases h1 : List.foldl (processPart pB jl) ([], act, comp) p1 with ⟨e1, rest⟩
  rcases rest with ⟨a1, c1⟩
  rw [processFold_shift pB jl p2 e1 a1 c1]

/-- Feeding `a ++ b` in one call is feeding `a` and then `b`: the emitted
events concatenate and the final state agrees. -/
theorem parse_stream_chunk_append (pB : Chars → Json) (jl : Chars → Option Json)
    (st : CFPStreamParser) (a b : Chars) :
    parse_stream_chunk pB jl st (a ++ b) =
      ((parse_stream_chunk pB jl st a).1 ++
        (parse_stream_chunk pB jl (parse_stream_chunk pB jl st a).2 b).1,
       (parse_stream_chunk pB jl (parse_stream_chunk pB jl st a).2 b).2) := by
  unfold parse_stream_chunk
  simp only
  rw [← List.append_assoc]
  rw [extract_append (_validate_cfp_content pB st.strict_validation) (st.buffer ++ a) b]
  rcases hx : _extract_complete_cfp_blocks
      (_validate_cfp_content pB st.strict_validation) (st.buffer ++ a) with ⟨p1, r1⟩
  simp only
  rcases hy : _extract_complete_cfp_blocks
      (_validate_cfp_content pB st.strict_validation) (r1 ++ b) with ⟨p2, r2⟩
  simp only
  rw [processParts_append pB jl p1 p2 st.active_calls st.completed_calls]

/-- After a feed, the retained buffer contains no complete block. -/
theorem parse_stream_chunk_no_block (pB : Chars → Json) (jl : Chars → Option Json)
    (st : CFPStreamParser) (chunk : Chars) :
    findBlock (parse_stream_chunk pB jl st chunk).2.buffer = none := by
  unfold parse_stream_chunk
  simp only
  rcases hz : processParts pB jl st.active_calls st.completed_calls
      (_extract_complete_cfp_blocks
        (_validate_cfp_content pB st.strict_validation) (st.buffer ++ chunk)).1
    with ⟨e1, rest1⟩
  rcases rest1 with ⟨a1, c1⟩
  exact extract_rem_no_block _ _

/-- Feeding the empty string from a quiescent state (a buffer without a
complete block) produces nothing and keeps the state. -/
theorem parse_stream_chunk_nil (pB : Chars → Json) (jl : Chars → Option Json)
    (st : CFPStreamParser) (h : findBlock st.buffer = none) :
    parse_stream_chunk pB jl st [] = ([], st) := by
  unfold parse_stream_chunk
  simp only [List.append_nil]
  rw [extract_eq_none h]
  simp [processParts]

/-- Feeding a list of fragments from a quiescent state equals feeding their
concatenation in one call. -/
theorem feedMany_flatten (pB : Chars → Json) (jl : Chars → Option Json) :
    ∀ (cs : List Chars) (st : CFPStreamParser), findBlock st.buffer = none →
    feedMany pB jl st cs = parse_stream_chunk pB jl st cs.flatten := by
  intro cs
  induction cs with
  | nil =>
    intro st h
    rw [feedMany, List.flatten_nil, parse_stream_chunk_nil pB jl st h]
  | cons c cs ih =>
    intro st h
    rw [feedMany, List.flatten_cons, parse_stream_chunk_append pB jl st c cs.flatten]
    rcases h1 : parse_stream_chunk pB jl st c with ⟨e1, st1⟩
    simp only
    have hq : findBlock st1.buffer = none := by
      have := parse_stream_chunk_no_block pB jl st c
      rw [h1] at this
      exact this
    rw [← ih st1 hq]

/-- Claim C1 (confirmed).  For every input string and every partition of it
into fragments, feeding a fresh `CFPStreamParser` the fragments in order via
`parse_stream_chunk` and then calling `finalize_stream` yields the same event
sequence (same constructors, ids and payloads, in the same order) as feeding
the whole string in one `parse_stream_chunk` call and finalizing.  The
statement is parameterized over the behaviour of `parse_block` and
`json.loads`, so it holds regardless of `json_repair`'s repair heuristics. -/
theorem C1_parser_fragmentation_invariance
    (parseB : Chars → Json) (jloads : Chars → Option Json)
    (strict_validation : Bool) (fragments : List Chars) :
    runStream parseB jloads strict_validation fragments =
      runStream parseB jloads strict_validation [fragments.flatten] := by
  unfold runStream
  have hq : findBlock (CFPStreamParser.init strict_validation).buffer = none := by
    rfl
  rw [feedMany_flatten parseB jloads fragments _ hq]
  rcases h1 : parse_stream_chunk parseB jloads
      (CFPStreamParser.init strict_validation) fragments.flatten with ⟨e1, st1⟩
  rw [feedMany]
  rw [h1]
  simp only [feedMany]
  rcases h2 : finalize_stream parseB jloads st1 with ⟨e2, st2⟩
  simp

/-- Python `==` is reflexive on JSON values. -/
theorem pyEq_refl : ∀ j : Json, pyEq j j = true := by
  intro j
  induction j using Json.rec
    (motive_2 := fun xs => pyEqArr xs xs = true)
    (motive_3 := fun fs => pyEqObj fs fs = true)
    (motive_4 := fun f => pyEq f.2 f.2 = true) <;>
    simp_all [pyEq, pyEqArr, pyEqObj]

/-- Updating a key makes it findable with the updated value. -/
theorem dictFind_dictSet (d : List (Json × CallInfo)) (k : Json) (v : CallInfo) :
    dictFind (dictSet d k v) k = some v := by
  induction d with
  | nil => simp [dictSet, dictFind, pyEq_refl]
  | cons p t ih =>
    obtain ⟨k', v'⟩ := p
    by_cases h : pyEq k' k <;> simp [dictSet, dictFind, h, ih]

/-- Processing an `args_complete` block whose id is active and whose
accumulated args is a string: the entry is cleaned, marked complete, kept in
`active_calls` (the source never deletes it) and copied to
`completed_calls`, and a `call_complete` event carrying the cleaned args is
returned. -/
theorem process_args_complete_str (jloads : Chars → Option Json)
    (active : List (Json × CallInfo)) (completed : List CallInfo)
    (fs : List (Chars × Json)) (cid : Json) (info : CallInfo) (s : Chars)
    (hrole : jsonObjGetD fs "role".data .null = .str "args_complete".data)
    (hid : jsonObjGetD fs "id".data .null = cid)
    (hhash : pyHashable cid = true)
    (hfind : dictFind active cid = some info)
    (hargs : info.args = .str s) :
    _process_cfp_block jloads active completed (.obj fs) =
      .ok (some (.call_complete cid (argsCompleteClean jloads s)),
        dictSet active cid
          { info with args := .str (argsCompleteClean jloads s), complete := true },
        completed ++
          [{ info with args := .str (argsCompleteClean jloads s), complete := true }]) := by
  simp only [_process_cfp_block]
  rw [hrole, hid]
  have h1 : pyEq (Json.str "args_complete".data) (.str "call".data) = false := by decide
  have h2 : pyEq (Json.str "args_complete".data) (.str "args_delta".data) = false := by
    decide
  have h3 : pyEq (Json.str "args_complete".data) (.str "args_complete".data) = true := by
    decide
  simp only [h1, h2, h3, Bool.false_eq_true, if_neg, if_pos, hhash, hfind]
  by_cases hs : s.isEmpty
  · have : s = [] := by
      cases s with
      | nil => rfl
      | cons a b => simp [List.isEmpty] at hs
    subst this
    simp [hargs, pyTruthy, argsCompleteClean]
  · have hs' : s.isEmpty = false := by
      cases h : s.isEmpty with
      | false => rfl
      | true => exact absurd h hs
    have ht : pyTruthy (Json.str s) = true := by
      simp [pyTruthy, hs']
    rw [hargs]
    simp only [ht, if_pos]
    unfold argsCompleteClean
    simp only [hs, Bool.false_eq_true, if_neg]
    cases jloads s <;> simp

set_option maxRecDepth 100000 in
/-- Claim C2, counterexample.  Feeding a call for id `a` and then two
`args_complete` blocks for `a` makes the parser emit `call_complete` for `a`
twice — the claim's "at most once" fails — and the id is still present in
`active_calls` afterwards, because `_process_cfp_block` never removes it. -/
theorem C2_counterexample :
    countCallComplete (runStream parse_block json_loads true [c2Input])
        (.str "a".data) = 2 ∧
    (dictFind (feedMany parse_block json_loads (CFPStreamParser.init true)
        [c2Input]).2.active_calls (.str "a".data)).isSome = true := by
  exact ⟨rfl, rfl⟩

/-- Claim C2 (corrected).  Processing an `args_complete` block whose id is in
`active_calls` (with the accumulated args a string, as every pure-string
stream produces) emits a `call_complete` event, but the id is NOT removed
from `active_calls`: the completed entry remains findable there, which is why
a later `args_complete` for the same id emits `call_complete` again. -/
theorem C2_args_complete_keeps_id_active
    (jloads : Chars → Option Json)
    (active : List (Json × CallInfo)) (completed : List CallInfo)
    (fs : List (Chars × Json)) (cid : Json) (info : CallInfo) (s : Chars)
    (hrole : jsonObjGetD fs "role".data .null = .str "args_complete".data)
    (hid : jsonObjGetD fs "id".data .null = cid)
    (hhash : pyHashable cid = true)
    (hfind : dictFind active cid = some info)
    (hargs : info.args = .str s) :
    ∃ info', _process_cfp_block jloads active completed (.obj fs) =
        .ok (some (.call_complete cid (argsCompleteClean jloads s)),
          dictSet active cid info', completed ++ [info']) ∧
      dictFind (dictSet active cid info') cid = some info' := by
  refine ⟨{ info with args := .str (argsCompleteClean jloads s), complete := true },
    ?_, ?_⟩
  · exact process_args_complete_str jloads active completed fs cid info s
      hrole hid hhash hfind hargs
  · exact dictFind_dictSet active cid _

/-- Witness for C2's theorem at a concrete state and block. -/
theorem C2_witness :
    ∃ info', _process_cfp_block json_loads [(Json.str "a".data, wInfo)] []
        (.obj wFs) =
        .ok (some (.call_complete (.str "a".data)
            (argsCompleteClean json_loads "5".data)),
          dictSet [(Json.str "a".data, wInfo)] (.str "a".data) info',
          [] ++ [info']) ∧
      dictFind (dictSet [(Json.str "a".data, wInfo)] (.str "a".data) info')
          (.str "a".data) = some info' :=
  C2_args_complete_keeps_id_active json_loads [(Json.str "a".data, wInfo)] []
    wFs (.str "a".data) wInfo "5".data rfl rfl rfl rfl rfl

/-- Claim C3, counterexample.  Feeding `"hello"` — a buffer containing no
`<cfp>` delimiter — to a fresh parser emits NO event and leaves the whole
text in the buffer, where the claim requires a `text` event and a cleared
buffer. -/
theorem C3_counterexample :
    (parse_stream_chunk parse_block json_loads (CFPStreamParser.init true)
        "hello".data).1 = [] ∧
    (parse_stream_chunk parse_block json_loads (CFPStreamParser.init true)
        "hello".data).2.buffer = "hello".data ∧
    containsSub TAG_OPEN "hello".data = false ∧
    "hello".data ≠ ([] : Chars) := by
  refine ⟨rfl, rfl, by decide, by decide⟩

/-- Claim C3 (corrected).  When the accumulated buffer contains no complete
`<cfp…>…</cfp>` block, `parse_stream_chunk` emits nothing and retains the
entire text: plain text is withheld until a complete block arrives or
`finalize_stream` runs, so the buffer can grow without bound over block-free
feeds.  (The buffer IS trimmed past the last complete block whenever one is
found, by `extract_rem_no_block`.) -/
theorem C3_no_block_retains_buffer
    (parseB : Chars → Json) (jloads : Chars → Option Json)
    (st : CFPStreamParser) (chunk : Chars)
    (h : findBlock (st.buffer ++ chunk) = none) :
    parse_stream_chunk parseB jloads st chunk =
      ([], { st with buffer := st.buffer ++ chunk }) := by
  simp only [parse_stream_chunk]
  rw [extract_eq_none h]
  simp [processParts]

set_option maxRecDepth 100000 in
/-- Witness for C3's theorem: feeding `"hello"` to a fresh parser. -/
theorem C3_witness :
    findBlock ((CFPStreamParser.init true).buffer ++ "hello".data) = none ∧
    parse_stream_chunk parse_block json_loads (CFPStreamParser.init true)
        "hello".data =
      ([], { CFPStreamParser.init true with
              buffer := (CFPStreamParser.init true).buffer ++ "hello".data }) :=
  ⟨rfl, C3_no_block_retains_buffer parse_block json_loads
    (CFPStreamParser.init true) "hello".data rfl⟩

set_option maxRecDepth 100000 in
/-- Claim C6, counterexample.  With accumulated args `"5"` — valid JSON that
is NOT a JSON object — the emitted `call_complete` carries `full_args = "5"`,
not the `"{}"` the claim requires for non-object accumulations. -/
theorem C6_counterexample :
    runStream parse_block json_loads true [c6Input] =
      [.call_start (.str "a".data) (.str "f".data) [],
       .args_delta (.str "a".data) (.str "5".data),
       .call_complete (.str "a".data) "5".data] ∧
    ("5".data : Chars) ≠ '{' :: ['}'] := by
  exact ⟨rfl, by decide⟩

/-- Claim C6 (corrected).  On `args_complete` for an active id with
string-valued accumulated args, `full_args` is the `json.dumps`
re-serialization whenever `json.loads` accepts the accumulation as ANY JSON
value (object or not); it is `"{}"` only when the accumulation is empty or
fails to parse. -/
theorem C6_full_args_reserializes_any_json
    (jloads : Chars → Option Json)
    (active : List (Json × CallInfo)) (completed : List CallInfo)
    (fs : List (Chars × Json)) (cid : Json) (info : CallInfo) (s : Chars)
    (hrole : jsonObjGetD fs "role".data .null = .str "args_complete".data)
    (hid : jsonObjGetD fs "id".data .null = cid)
    (hhash : pyHashable cid = true)
    (hfind : dictFind active cid = some info)
    (hargs : info.args = .str s) :
    ∃ act' comp', _process_cfp_block jloads active completed (.obj fs) =
      .ok (some (.call_complete cid
          (if s.isEmpty then '{' :: ['}']
           else
             match jloads s with
             | some v => json_dumps v
             | none => '{' :: ['}'])), act', comp') := by
  refine ⟨dictSet active cid
      { info with args := .str (argsCompleteClean jloads s), complete := true },
    completed ++
      [{ info with args := .str (argsCompleteClean jloads s), complete := true }], ?_⟩
  rw [process_args_complete_str jloads active completed fs cid info s
    hrole hid hhash hfind hargs]
  rfl

/-- Witness for C6's theorem, at accumulated args `"5"`. -/
theorem C6_witness :
    ∃ act' comp', _process_cfp_block json_loads [(Json.str "a".data, wInfo)] []
        (.obj wFs) =
      .ok (some (.call_complete (.str "a".data)
          (if "5".data.isEmpty then '{' :: ['}']
           else
             match json_loads "5".data with
             | some v => json_dumps v
             | none => '{' :: ['}'])), act', comp') :=
  C6_full_args_reserializes_any_json json_loads [(Json.str "a".data, wInfo)] []
    wFs (.str "a".data) wInfo "5".data rfl rfl rfl rfl rfl

/-- The closing delimiter has no nontrivial self-overlap, so appending it to
text that does not contain it puts its first occurrence exactly at the
junction. -/
theorem tagClose_append_split :
    ∀ content : Chars, splitFirst? TAG_CLOSE content = none →
      splitFirst? TAG_CLOSE (content ++ TAG_CLOSE) = some (content, []) := by
  intro content
  induction content with
  | nil => intro _; decide
  | cons c cs ih =>
    intro h
    rw [splitFirst?] at h
    by_cases hp : TAG_CLOSE.isPrefixOf (c :: cs)
    · simp [hp] at h
    · simp only [hp, if_neg, Bool.false_eq_true, not_false_iff] at h
      have hcs : splitFirst? TAG_CLOSE cs = none := by
        cases hx : splitFirst? TAG_CLOSE cs with
        | none => rfl
        | some pr => obtain ⟨x, y⟩ := pr; rw [hx] at h; simp at h
      have hp2 : ¬ TAG_CLOSE.isPrefixOf (c :: (cs ++ TAG_CLOSE)) := by
        intro hcon
        have h1 : TAG_CLOSE <+: (c :: cs) ++ TAG_CLOSE := by
          rw [List.cons_append]
          exact List.isPrefixOf_iff_prefix.mp hcon
        by_cases hlen : TAG_CLOSE.length ≤ (c :: cs).length
        · exact hp (List.isPrefixOf_iff_prefix.mpr (prefix_of_append_left h1 hlen))
        · push_neg at hlen
          obtain ⟨r, hr⟩ := h1
          have hm6 : (c :: cs).length < 6 := by
            have h6 : TAG_CLOSE.length = 6 := by decide
            omega
          have htake : TAG_CLOSE.take (c :: cs).length = c :: cs := by
            have h0 := congrArg (List.take (c :: cs).length) hr
            rw [List.take_append_eq_append_take, List.take_append_eq_append_take] at h0
            have hz1 : (c :: cs).length - TAG_CLOSE.length = 0 := by
              have h6 : TAG_CLOSE.length = 6 := by decide
              omega
            have hz2 : (c :: cs).length - (c :: cs).length = 0 := by omega
            rw [hz1, hz2] at h0
            simpa using h0
          have hcon2 : TAG_CLOSE.isPrefixOf
              (TAG_CLOSE.take (c :: cs).length ++ TAG_CLOSE) = true := by
            rw [htake, List.cons_append]
            exact hcon
          have hm1 : 1 ≤ (c :: cs).length := by simp
          set m := (c :: cs).length with hm
          interval_cases m <;> revert hcon2 <;> decide
      rw [List.cons_append, splitFirst?]
      simp only [hp2, if_neg, Bool.false_eq_true, not_false_iff]
      rw [ih hcs]

/-- Shape of the extraction match for a single complete `<cfp>…</cfp>` block
whose body does not contain the closing delimiter. -/
theorem findBlock_wrap (content : Chars)
    (hnc : splitFirst? TAG_CLOSE content = none) :
    findBlock (TAG_OPEN ++ content ++ TAG_CLOSE) = some ([], [], content, []) := by
  have h1 : splitFirst? TAG_OPEN_STEM (TAG_OPEN ++ content ++ TAG_CLOSE) =
      some ([], '>' :: (content ++ TAG_CLOSE)) := by
    rw [List.append_assoc]
    rw [show TAG_OPEN ++ (content ++ TAG_CLOSE) =
      '<' :: 'c' :: 'f' :: 'p' :: '>' :: (content ++ TAG_CLOSE) from rfl]
    rw [splitFirst?]
    simp [TAG_OPEN_STEM, List.isPrefixOf]
  have h2 : splitFirst? ['>'] ('>' :: (content ++ TAG_CLOSE)) =
      some ([], content ++ TAG_CLOSE) := by
    rw [splitFirst?]
    simp [List.isPrefixOf]
  simp only [findBlock, h1, h2, tagClose_append_split content hnc]

/-- Each of the protocol-validation failure reasons makes
`_validate_cfp_content` reject a parsed dict. -/
theorem validate_false_of_reasons (parseB : Chars → Json) (content : Chars)
    (fs : List (Chars × Json)) (hparse : parseB content = .obj fs)
    (hfail :
      ¬ pyEq (jsonObjGetD fs "v".data .null) (.num 1) = true ∨
      ¬ (["call", "result", "error", "args_delta", "args_complete"].any
          (fun r => pyEq (jsonObjGetD fs "role".data .null) (.str r.data))) = true ∨
      pyTruthy (jsonObjGetD fs "id".data .null) = false ∨
      (∀ s, jsonObjGetD fs "id".data .null ≠ .str s) ∨
      (jsonObjGetD fs "role".data .null = .str "call".data ∧
        (pyTruthy (jsonObjGetD fs "name".data .null) = false ∨
         ∀ gs, jsonObjGetD fs "args".data .null ≠ .obj gs))) :
    _validate_cfp_content parseB true content = false := by
  unfold _validate_cfp_content
  rw [hparse]
  simp only [not_true, if_neg, not_false_iff, if_pos, Bool.not_eq_true]
  by_cases h1 : pyEq (jsonObjGetD fs "v".data .null) (.num 1) = true
  case neg => simp [h1]
  simp only [h1, not_true, Bool.false_eq_true, if_neg, if_false]
  by_cases h2 : (["call", "result", "error", "args_delta", "args_complete"].any
      (fun r => pyEq (jsonObjGetD fs "role".data .null) (.str r.data))) = true
  case neg => simp [h2]
  simp only [h2, not_true, if_neg, Bool.false_eq_true]
  by_cases h3 : pyTruthy (jsonObjGetD fs "id".data .null) = true
  case neg => simp [h3]
  simp only [h3, not_true, if_neg, Bool.false_eq_true]
  cases hid : jsonObjGetD fs "id".data .null with
  | str sid =>
    rcases hfail with f1 | f2 | f3 | f4 | f5
    · exact absurd h1 f1
    · exact absurd h2 f2
    · rw [h3] at f3; exact absurd f3 (by simp)
    · exact absurd hid (f4 sid)
    · obtain ⟨hc, hbad⟩ := f5
      rw [hc]
      have hcall : pyEq (Json.str "call".data) (.str "call".data) = true := by decide
      simp only [hcall, if_pos]
      rcases hbad with hb1 | hb2
      · rw [hb1]
        simp only [Bool.false_and]
        simp
      · cases ha : jsonObjGetD fs "args".data .null with
        | obj gs => exact absurd ha (hb2 gs)
        | null => simp only [Bool.and_false]; simp
        | bool b => simp only [Bool.and_false]; simp
        | num n => simp only [Bool.and_false]; simp
        | str s2 => simp only [Bool.and_false]; simp
        | arr xs => simp only [Bool.and_false]; simp
  | null => rfl
  | bool b => rfl
  | num n => rfl
  | arr xs => rfl
  | obj gs => rfl

/-- Claim C10 (confirmed).  Under the default strict validation, a complete
delimiter-wrapped block whose payload parses to a dict failing any of the
protocol checks — wrong `v`, unknown role, missing/non-string/empty id, or a
`call` without a truthy name or with a non-dict `args` — is emitted as a
single `text` event holding the entire delimiter-to-delimiter run verbatim,
with `active_calls`, `completed_calls` and the buffer left untouched. -/
theorem C10_invalid_block_surfaces_verbatim
    (parseB : Chars → Json) (jloads : Chars → Option Json)
    (st : CFPStreamParser) (content : Chars) (fs : List (Chars × Json))
    (hstrict : st.strict_validation = true)
    (hbuf : st.buffer = [])
    (hnc : splitFirst? TAG_CLOSE content = none)
    (hparse : parseB content = .obj fs)
    (hfail :
      ¬ pyEq (jsonObjGetD fs "v".data .null) (.num 1) = true ∨
      ¬ (["call", "result", "error", "args_delta", "args_complete"].any
          (fun r => pyEq (jsonObjGetD fs "role".data .null) (.str r.data))) = true ∨
      pyTruthy (jsonObjGetD fs "id".data .null) = false ∨
      (∀ s, jsonObjGetD fs "id".data .null ≠ .str s) ∨
      (jsonObjGetD fs "role".data .null = .str "call".data ∧
        (pyTruthy (jsonObjGetD fs "name".data .null) = false ∨
         ∀ gs, jsonObjGetD fs "args".data .null ≠ .obj gs))) :
    parse_stream_chunk parseB jloads st (TAG_OPEN ++ content ++ TAG_CLOSE) =
      ([.text (TAG_OPEN ++ content ++ TAG_CLOSE)], st) := by
  have hval : _validate_cfp_content parseB st.strict_validation content = false := by
    rw [hstrict]
    exact validate_false_of_reasons parseB content fs hparse hfail
  simp only [parse_stream_chunk, hbuf, List.nil_append]
  rw [extract_eq_some (findBlock_wrap content hnc)]
  rw [extract_eq_none (show findBlock [] = none from rfl)]
  simp only [hval, List.isEmpty_nil, if_pos, if_neg, Bool.false_eq_true,
    List.nil_append]
  have hg0 : blockGroup0 [] content = TAG_OPEN ++ content ++ TAG_CLOSE := by
    simp [blockGroup0, TAG_OPEN, TAG_OPEN_STEM]
  rw [hg0]
  have hne : (TAG_OPEN ++ content ++ TAG_CLOSE).isEmpty = false := by
    simp [TAG_OPEN]
  simp only [processParts, List.foldl_cons, List.foldl_nil, processPart, hne,
    Bool.false_eq_true, if_neg, List.nil_append]
  cases st with
  | mk a c b s =>
    have hb : b = [] := hbuf
    have hs : s = true := hstrict
    subst hb
    subst hs
    rfl

set_option maxRecDepth 100000 in
/-- Witness for C10's theorem: a complete block with `v = 2` fed to a fresh
strict parser surfaces verbatim as text. -/
theorem C10_witness :
    parse_stream_chunk parse_block json_loads (CFPStreamParser.init true)
        (TAG_OPEN ++ c10Content ++ TAG_CLOSE) =
      ([.text (TAG_OPEN ++ c10Content ++ TAG_CLOSE)], CFPStreamParser.init true) :=
  C10_invalid_block_surfaces_verbatim parse_block json_loads
    (CFPStreamParser.init true) c10Content c10Fs rfl rfl rfl rfl
    (Or.inl (by decide))

/-- Every value needs at least one unit of fuel. -/
theorem jsize_pos : ∀ j : Json, 1 ≤ jsize j := by
  intro j
  cases j <;> simp [jsize]

/-- C5 counterexample: with the source's default `use_role_markers=True`,
the encoded block does not start with the plain ASCII `<cfp>` delimiter —
the role marker `⚡` stands between `<cfp` and `>`. -/
theorem C5_marker_counterexample :
    (encode "call".data "c1".data (some "get".data) none none none 1 true).map
        (fun enc => TAG_OPEN.isPrefixOf enc) = some false ∧
      (encode "call".data "c1".data (some "get".data) none none none 1 true).map
        (fun enc => enc.take 6) =
        some ('<' :: 'c' :: 'f' :: 'p' :: '⚡' :: ['>']) := by
  constructor
  · decide
  · decide

/-- C5 amended: for every supported role, `encode` emits
`<cfp{role marker}>payload</cfp>` under the default `use_role_markers=True`,
and the plain `<cfp>payload</cfp>` form only when `use_role_markers=False`. -/
theorem C5_wire_format (role call_id : Chars) (name : Option Chars)
    (args result err : Option Json)
    (hrole : role = "call".data ∨ role = "args_delta".data ∨
      role = "args_complete".data ∨ role = "result".data ∨ role = "error".data) :
    ∃ payload,
      encode role call_id name args result err 1 true =
        some (TAG_OPEN_STEM ++ [get_marker_for_role role] ++ ['>'] ++ payload ++
          TAG_CLOSE) ∧
      encode role call_id name args result err 1 false =
        some (TAG_OPEN ++ payload ++ TAG_CLOSE) := by
  rcases hrole with h | h | h | h | h <;> subst h <;> exact ⟨_, rfl, rfl⟩

/-- Concrete instantiation of the amended C5 wire format. -/
theorem C5_wire_format_witness :
    ∃ payload,
      encode "call".data "c9".data none none none none 1 true =
        some (TAG_OPEN_STEM ++ [get_marker_for_role "call".data] ++ ['>'] ++
          payload ++ TAG_CLOSE) ∧
      encode "call".data "c9".data none none none none 1 false =
        some (TAG_OPEN ++ payload ++ TAG_CLOSE) :=
  C5_wire_format "call".data "c9".data none none none none (Or.inl rfl)

/-- Validation of any sonnet-aliased model under `PREFERRED_PROVIDER` not in
the google/gemini/anthropic branches: the result is the prefixed `BIG_MODEL`
and the CFP flag is read off that mapped name. -/
theorem validate_sonnet_general (v P B S : Chars)
    (hs : containsSub "sonnet".data (lowerChars (cleanV v)) = true)
    (hh : containsSub "haiku".data (lowerChars (cleanV v)) = false)
    (hB : hasProviderPrefix B = false)
    (hP1 : ¬(P = "google".data ∨ P = "gemini".data))
    (hP2 : ¬P = "anthropic".data)
    (hflag : cfpSuffixes.any
      (fun suf => containsSub suf ("openai/".data ++ B)) = false) :
    validate_model_field v P B S = ("openai/".data ++ B, false) := by
  simp only [validate_model_field, applyProviderPrefix]
  rw [hh, hs, hB]
  simp only [reduceIte, Bool.false_eq_true, if_false]
  rw [if_neg hP1, if_neg hP2, hflag]
  simp

/-- C7 counterexample: the incoming model `sonnet-cfp` carries the `-cfp`
suffix, yet validation returns `_cfp_enabled = False`, because the source
scans for the CFP suffixes only after the alias mapping has replaced the
whole name with the prefixed `BIG_MODEL`. -/
theorem C7_counterexample :
    validate_model_field "sonnet-cfp".data "openai".data "gpt-4.1".data
      "gpt-4o-mini".data = ("openai/gpt-4.1".data, false) := by
  rfl

/-- C7 amended: CFP-flag detection happens after alias mapping, on the mapped
name.  Any model whose stripped form contains `sonnet` (and not `haiku`) —
whatever CFP suffixes it carries — validates to the prefixed `BIG_MODEL`
with the CFP flag off whenever the mapped name itself carries no suffix. -/
theorem C7_cfp_flag_checked_after_alias (v S : Chars)
    (hs : containsSub "sonnet".data (lowerChars (cleanV v)) = true)
    (hh : containsSub "haiku".data (lowerChars (cleanV v)) = false) :
    validate_model_field v "openai".data "gpt-4.1".data S =
      ("openai/gpt-4.1".data, false) :=
  validate_sonnet_general v "openai".data "gpt-4.1".data S hs hh (by decide)
    (by decide) (by decide) (by decide)

/-- Concrete instantiation of the amended C7 statement. -/
theorem C7_cfp_flag_checked_after_alias_witness :
    containsSub "sonnet".data (lowerChars (cleanV "sonnet-text".data)) = true ∧
      containsSub "haiku".data (lowerChars (cleanV "sonnet-text".data)) = false ∧
      validate_model_field "sonnet-text".data "openai".data "gpt-4.1".data
        "m".data = ("openai/gpt-4.1".data, false) :=
  ⟨by decide, by decide,
    C7_cfp_flag_checked_after_alias "sonnet-text".data "m".data (by decide)
      (by decide)⟩

/-- C8 counterexample: `sonnet:gemini` with a configured gemini channel does
not reach the gemini provider.  The validator maps the whole string
(channel suffix included) to the prefixed `BIG_MODEL` first, so the `:`
split never sees the channel and resolution falls back to the default
provider. -/
theorem C8_counterexample :
    resolve_model_channel "sonnet:gemini".data "openai".data
        "claude-4-sonnet".data "gpt-4o-mini".data c8Providers =
      some ("openai/claude-4-sonnet".data, c8Pdef) ∧ c8Pdef ≠ c8Pgem := by
  constructor
  · rfl
  · decide

/-- C8 amended: alias mapping runs before the channel split.  Every model
whose stripped form contains `sonnet` (and not `haiku`) — channel suffix or
not — resolves to the prefixed `BIG_MODEL` on the `default` provider. -/
theorem C8_alias_discards_channel (v S : Chars)
    (providers : List (Chars × Provider)) (pdef : Provider)
    (hs : containsSub "sonnet".data (lowerChars (cleanV v)) = true)
    (hh : containsSub "haiku".data (lowerChars (cleanV v)) = false)
    (hdef : provFind providers "default".data = some pdef) :
    resolve_model_channel v "openai".data "claude-4-sonnet".data S providers =
      some ("openai/claude-4-sonnet".data, pdef) := by
  rw [resolve_model_channel,
    validate_sonnet_general v "openai".data "claude-4-sonnet".data S hs hh
      (by decide) (by decide) (by decide) (by decide)]
  show parse_model_and_channel providers "openai/claude-4-sonnet".data = _
  rw [parse_model_and_channel,
    show splitFirst? [':'] "openai/claude-4-sonnet".data = none from rfl, hdef]
  rfl

/-- Concrete instantiation of the amended C8 statement. -/
theorem C8_alias_discards_channel_witness :
    containsSub "sonnet".data (lowerChars (cleanV "my-sonnet:gemini".data)) =
        true ∧
      containsSub "haiku".data (lowerChars (cleanV "my-sonnet:gemini".data)) =
        false ∧
      provFind c8Providers "default".data = some c8Pdef ∧
      resolve_model_channel "my-sonnet:gemini".data "openai".data
          "claude-4-sonnet".data "m".data c8Providers =
        some ("openai/claude-4-sonnet".data, c8Pdef) :=
  ⟨by decide, by decide, rfl,
    C8_alias_discards_channel "my-sonnet:gemini".data "m".data c8Providers
      c8Pdef (by decide) (by decide) rfl⟩

/-- C9: the block-index discipline is violated by the interrupt path.  On a
stream that opens the text block at index 0 and then ends without a
finish reason, `handle_streaming` emits `message_delta` with no
`content_block_stop` for the opened index anywhere in the stream. -/
theorem C9_interrupt_missing_block_stop :
    handle_streaming_noncfp [c9Chunk] =
      [SSE.message_start, SSE.block_start_text 0,
        SSE.block_delta_text 0 "hi".data,
        SSE.message_delta_ev "end_turn".data 0, SSE.message_stop, SSE.done] ∧
      SSE.block_stop 0 ∉ handle_streaming_noncfp [c9Chunk] := by
  constructor
  · rfl
  · decide

